import Mathlib

/-!
React_Projects: the two note takers and the click-the-square game.

A shallow embedding of the three single-screen applications of the repository:

* `Note_Taker.js`        (namespace `NoteTaker`): add and delete notes;
* `Note_Take_2.js`       (namespace `NoteTake2`): the categorized variant with inline edit;
* `Click_The_Square.js`  (namespace `ClickTheSquare`): the reaction game.

Every React event handler is a function from the component state of the render in which
the handler was created to the state after all the updates it queued were applied.
Values the platform supplies (`Date.now()`, the locale date label, `Math.random()`, the
measured game area) are explicit arguments. The game's interval callbacks are created
inside `startGame`, so each registered interval carries the bindings of the render in
which that `startGame` was created (`Closure`), while the arguments of functional state
updates and the `current` field of refs are read from the state at the time of the call.
Sound playback is not modelled.
-/

/-! ## Strings: `String.prototype.trim` -/

namespace Js

/-- Code points that ECMAScript's `trim` strips: WhiteSpace (TAB, VT, FF, ZWNBSP and the
Unicode space separators) and LineTerminator (LF, CR, LS, PS). -/
def whiteSpaceCodes : List Nat :=
  [0x0009, 0x000A, 0x000B, 0x000C, 0x000D, 0x0020, 0x00A0, 0x1680,
   0x2000, 0x2001, 0x2002, 0x2003, 0x2004, 0x2005, 0x2006, 0x2007, 0x2008, 0x2009, 0x200A,
   0x2028, 0x2029, 0x202F, 0x205F, 0x3000, 0xFEFF]

/-- Whether `trim` treats the character as white space. -/
def isWhiteSpace (c : Char) : Bool :=
  whiteSpaceCodes.contains c.toNat

/-- Drop the white space at the end of a character list. -/
def trimEnd (cs : List Char) : List Char :=
  ((cs.reverse).dropWhile isWhiteSpace).reverse

/-- The method `String.prototype.trim`: strip white space from both ends. -/
def trim (s : String) : String :=
  String.mk (trimEnd (s.data.dropWhile isWhiteSpace))

/-- The platform values read when a note is created: `Date.now()` and
`new Date().toLocaleDateString()`. -/
structure Clock where
  now : Nat
  localeDate : String
deriving DecidableEq, Repr

end Js

/-! ## Note_Taker.js -/

namespace NoteTaker

/-- A note of the basic note taker: `{ id, text, date }`. -/
structure Note where
  id : Nat
  text : String
  date : String
deriving DecidableEq, Repr

/-- Component state: `notes` and the input `newNote`. -/
structure App where
  notes : List Note
  newNote : String
deriving DecidableEq, Repr

/-- The state on mount: the stored list (or empty) and an empty input. -/
def App.init (saved : Option (List Note)) : App :=
  { notes := saved.getD [], newNote := "" }

/-- The input's `onChange`: `setNewNote(e.target.value)`. -/
def setNewNote (value : String) (s : App) : App :=
  { s with newNote := value }

/-- The handler `handleAddNote` (lines 21-31). -/
def handleAddNote (clock : Js.Clock) (s : App) : App :=
  if Js.trim s.newNote ≠ "" then
    let note : Note :=
      { id := clock.now, text := Js.trim s.newNote, date := clock.localeDate }
    { notes := s.notes ++ [note], newNote := "" }
  else s

/-- The handler `handleDeleteNote` (lines 34-37). -/
def handleDeleteNote (id : Nat) (s : App) : App :=
  { s with notes := s.notes.filter (fun note => note.id ≠ id) }

end NoteTaker

/-! ## Note_Take_2.js -/

namespace NoteTake2

/-- An entry of `STUDY_CATEGORIES`. -/
structure Category where
  name : String
  color : String
deriving DecidableEq, Repr

/-- The constant `STUDY_CATEGORIES` (lines 4-13). -/
def STUDY_CATEGORIES : List Category :=
  [ { name := "General", color := "bg-gray-200" },
    { name := "Lecture Notes", color := "bg-blue-200" },
    { name := "Textbook Summaries", color := "bg-green-200" },
    { name := "Revision Points", color := "bg-yellow-200" },
    { name := "Problem Solving", color := "bg-purple-200" },
    { name := "Important Concepts", color := "bg-red-200" },
    { name := "Research", color := "bg-indigo-200" },
    { name := "Brainstorming", color := "bg-pink-200" } ]

/-- A note of the categorized note taker: `{ id, text, date, category, color }`. -/
structure Note where
  id : Nat
  text : String
  date : String
  category : String
  color : String
deriving DecidableEq, Repr

/-- Component state of the categorized note taker. -/
structure App where
  notes : List Note
  newNote : String
  selectedCategory : String
  editingNoteId : Option Nat
  editedNoteText : String
  editedNoteCategory : String
deriving DecidableEq, Repr

/-- The default of `selectedCategory`: `STUDY_CATEGORIES[0].name`. -/
def defaultCategory : String :=
  match STUDY_CATEGORIES.head? with
  | some cat => cat.name
  | none => ""

/-- The state on mount. -/
def App.init (saved : Option (List Note)) : App :=
  { notes := saved.getD [], newNote := "", selectedCategory := defaultCategory,
    editingNoteId := none, editedNoteText := "", editedNoteCategory := "" }

/-- The expression `categoryObj ? categoryObj.color : 'bg-gray-200'` where
`categoryObj = STUDY_CATEGORIES.find(cat => cat.name === category)`. -/
def categoryColor (category : String) : String :=
  match STUDY_CATEGORIES.find? (fun cat => cat.name == category) with
  | some categoryObj => categoryObj.color
  | none => "bg-gray-200"

/-- The handler `handleAddNote` (lines 42-56). -/
def handleAddNote (clock : Js.Clock) (s : App) : App :=
  if Js.trim s.newNote ≠ "" then
    let note : Note :=
      { id := clock.now, text := Js.trim s.newNote, date := clock.localeDate,
        category := s.selectedCategory, color := categoryColor s.selectedCategory }
    { s with notes := s.notes ++ [note], newNote := "", selectedCategory := defaultCategory }
  else s

/-- The handler `handleDeleteNote` (lines 59-62). -/
def handleDeleteNote (id : Nat) (s : App) : App :=
  { s with notes := s.notes.filter (fun note => note.id ≠ id) }

/-- The handler `handleEditClick` (lines 65-69). -/
def handleEditClick (note : Note) (s : App) : App :=
  { s with editingNoteId := some note.id, editedNoteText := note.text,
           editedNoteCategory := note.category }

/-- The handler `handleSaveEdit` (lines 72-90); the else branch only logs. -/
def handleSaveEdit (id : Nat) (s : App) : App :=
  if Js.trim s.editedNoteText ≠ "" then
    { s with
      notes := s.notes.map (fun note =>
        if note.id = id then
          { note with text := Js.trim s.editedNoteText, category := s.editedNoteCategory,
                      color := categoryColor s.editedNoteCategory }
        else note),
      editingNoteId := none, editedNoteText := "", editedNoteCategory := "" }
  else s

/-- The handler `handleCancelEdit` (lines 93-97). -/
def handleCancelEdit (s : App) : App :=
  { s with editingNoteId := none, editedNoteText := "", editedNoteCategory := "" }

/-- A change to the draft of an edit session: the `onChange` of the edit textarea
(`setEditedNoteText`) or of the edit select (`setEditedNoteCategory`). -/
inductive DraftChange where
  | text (value : String)
  | category (value : String)
deriving DecidableEq, Repr

/-- Apply one draft change. -/
def applyDraftChange (s : App) : DraftChange → App
  | .text value => { s with editedNoteText := value }
  | .category value => { s with editedNoteCategory := value }

/-- Apply the draft changes of an edit session in order. -/
def applyDraftChanges (s : App) (changes : List DraftChange) : App :=
  changes.foldl applyDraftChange s

end NoteTake2

/-! ## Click_The_Square.js -/

namespace ClickTheSquare

/-- The value `num / den` of a JavaScript number that need not be an integer (a pixel
offset): JavaScript numbers are IEEE 754 doubles, each of which is such a fraction with a
power of two as denominator. -/
structure Frac where
  num : Int
  den : Nat
deriving DecidableEq, Repr

/-- The number of low binary digits a natural number has beyond 53 significant ones: 0 below
`2 ^ 53`, else one more than for its half. The first argument bounds the recursion. -/
def excessBits : Nat → Nat → Nat
  | 0, _ => 0
  | fuel + 1, n => if n < 2 ^ 53 then 0 else excessBits fuel (n / 2) + 1

/-- The rounding of IEEE 754 double arithmetic (round to nearest, ties to even) on the
integer numerator of an exact result: `n` is kept when it has at most 53 significant binary
digits, else it is rounded to the nearest multiple of `2 ^ shift` that leaves 53 digits, a tie
going to the even significand. -/
def roundNat53 (n : Nat) : Nat :=
  let shift := excessBits n n
  let q := n / 2 ^ shift
  let rest := n % 2 ^ shift
  let half := 2 ^ (shift - 1)
  if rest < half then q * 2 ^ shift
  else if half < rest then (q + 1) * 2 ^ shift
  else if q % 2 = 0 then q * 2 ^ shift
  else (q + 1) * 2 ^ shift

/-- An entry of `SQUARE_TYPES`. -/
structure SquareType where
  id : String
  size : Nat
  color : String
  points : Nat
  speedFactor : Frac
deriving DecidableEq, Repr

/-- The constant `SQUARE_TYPES` (lines 6-10). -/
def SQUARE_TYPES : List SquareType :=
  [ { id := "small", size := 30, color := "bg-purple-600", points := 3, speedFactor := ⟨8, 10⟩ },
    { id := "medium", size := 50, color := "bg-purple-500", points := 2, speedFactor := ⟨1, 1⟩ },
    { id := "large", size := 70, color := "bg-purple-400", points := 1, speedFactor := ⟨12, 10⟩ } ]

/-- The entry `SQUARE_TYPES[1]`, the initial `currentSquareType`. -/
def mediumSquare : SquareType :=
  SQUARE_TYPES.get ⟨1, by decide⟩

/-- A result of `Math.random()`: a double that is at least 0 and less than 1. Every such
double is `num / 2 ^ exp` with a significand `num` below `2 ^ 53` and `53 ≤ exp ≤ 1074`, and
every such fraction is a double in that range. -/
structure Draw where
  num : Nat
  exp : Nat
  num_lt : num < 2 ^ 53
  exp_ge : 53 ≤ exp
  exp_le : exp ≤ 1074
deriving DecidableEq, Repr

/-- The measured game area: `offsetWidth` and `offsetHeight` of `#game-area`. -/
structure GameArea where
  offsetWidth : Nat
  offsetHeight : Nat
deriving DecidableEq, Repr

/-- What one call of `moveSquare` reads from the platform: the game-area element (absent
when `getElementById` returns null) and the three `Math.random()` results in call order. -/
structure MoveInput where
  gameArea : Option GameArea
  randTop : Draw
  randLeft : Draw
  randType : Draw
deriving DecidableEq, Repr

/-- A CSS length of the square's style: the initial `'50%'` or a pixel offset. -/
inductive CssLength where
  | percent (n : Nat)
  | px (v : Frac)
deriving DecidableEq, Repr

/-- The state `squarePosition`. -/
structure SquarePosition where
  top : CssLength
  left : CssLength
deriving DecidableEq, Repr

/-- The bindings of the render in which `startGame` was created that its timer callbacks
read: `score`, `timeLeft` and, through `moveSquare`, `currentSquareType.size`. -/
structure Closure where
  score : Nat
  timeLeft : Nat
  squareSize : Nat
deriving DecidableEq, Repr

/-- The callbacks passed to `setInterval`: the countdown tick (line 105), the time-left
tick (line 112), the square-move tick that also adjusts the speed (line 135) and the bare
`moveSquare` of the re-created interval (line 142). -/
inductive TimerKind where
  | countdown
  | gameTimer
  | squareMove
  | moveOnly
deriving DecidableEq, Repr

/-- An interval registered with `setInterval` and not yet cleared. -/
structure Timer where
  id : Nat
  kind : TimerKind
  delay : Nat
  env : Closure
deriving DecidableEq, Repr

/-- Component state, refs, the registered intervals and the stored high score
(`localStorage['clickTheSquareHighScore']`, an integer as text). -/
structure Game where
  score : Nat
  timeLeft : Nat
  gameStarted : Bool
  countdown : Nat
  squarePosition : SquarePosition
  currentSquareType : SquareType
  highScore : Nat
  isClicked : Bool
  gameTimerRef : Option Nat
  countdownTimerRef : Option Nat
  squareMoveIntervalRef : Option Nat
  currentMoveSpeedRef : Nat
  timers : List Timer
  nextTimerId : Nat
  feedbackTimeouts : Nat
  storedHighScore : Option Nat
deriving DecidableEq, Repr

/-- The state after mount (lines 29-51): the defaults, with the high score read from
storage when an entry is present. -/
def Game.init (saved : Option Nat) : Game :=
  { score := 0, timeLeft := 15, gameStarted := false, countdown := 3,
    squarePosition := { top := .percent 50, left := .percent 50 },
    currentSquareType := mediumSquare,
    highScore := saved.getD 0, isClicked := false,
    gameTimerRef := none, countdownTimerRef := none, squareMoveIntervalRef := none,
    currentMoveSpeedRef := 800, timers := [], nextTimerId := 1, feedbackTimeouts := 0,
    storedHighScore := saved }

/-- The call `setInterval(callback, delay)`: registers the interval, returns its id. -/
def setInterval (kind : TimerKind) (delay : Nat) (env : Closure) (g : Game) : Game × Nat :=
  ({ g with timers := g.timers ++ [{ id := g.nextTimerId, kind := kind, delay := delay, env := env }],
            nextTimerId := g.nextTimerId + 1 }, g.nextTimerId)

/-- The call `clearInterval(ref.current)`; a null or stale id clears nothing. -/
def clearInterval (ref : Option Nat) (g : Game) : Game :=
  match ref with
  | none => g
  | some id => { g with timers := g.timers.filter (fun t => t.id ≠ id) }

/-- The index `Math.floor(Math.random() * SQUARE_TYPES.length)`: the double product
`fl(r * 3)` has numerator `roundNat53 (num * 3)` over `2 ^ exp`, and its floor is the
quotient. -/
def randomIndex (r : Draw) : Nat :=
  roundNat53 (r.num * SQUARE_TYPES.length) / 2 ^ r.exp

/-- The index together with the fact that it is a valid index of `SQUARE_TYPES`: the
product of a double below 1 and 3 cannot round up to 3. -/
def randomIndexInRange (r : Draw) : Fin SQUARE_TYPES.length :=
  ⟨randomIndex r, by
    have hlen : SQUARE_TYPES.length = 3 := rfl
    have hnum := r.num_lt
    have hexp : 2 ^ 53 ≤ 2 ^ r.exp := Nat.pow_le_pow_right (by decide) r.exp_ge
    unfold randomIndex
    rw [hlen]
    apply Nat.div_lt_of_lt_mul
    have hround : roundNat53 (r.num * 3) < 2 ^ 53 * 3 := by
      generalize hprod : r.num * 3 = n
      have hn : n ≤ 2 ^ 53 * 3 - 3 := by omega
      have hbits : excessBits n n
          = if n < 2 ^ 53 then 0 else if n < 2 ^ 54 then 1 else 2 := by
        by_cases hsmall : n < 2 ^ 53
        · rw [if_pos hsmall]
          cases n with
          | zero => rfl
          | succ k => simp only [excessBits, hsmall, if_true]
        · obtain ⟨fuel, hfuel⟩ : ∃ fuel, n = fuel + 3 := ⟨n - 3, by omega⟩
          rw [if_neg hsmall]
          conv_lhs => arg 1; rw [hfuel]
          simp only [excessBits, hsmall, if_false]
          split_ifs <;> omega
      unfold roundNat53
      rw [hbits]
      by_cases hsmall : n < 2 ^ 53
      · rw [if_pos hsmall]
        norm_num
        split_ifs <;> omega
      · rw [if_neg hsmall]
        by_cases hmid : n < 2 ^ 54
        · rw [if_pos hmid]
          norm_num
          split_ifs <;> omega
        · rw [if_neg hmid]
          norm_num
          split_ifs <;> omega
    omega⟩

/-- The lookup `SQUARE_TYPES[randomIndex]`. -/
def randomSquareType (r : Draw) : SquareType :=
  SQUARE_TYPES.get (randomIndexInRange r)

/-- The product `Math.random() * (extent - squareSize)` as a double: the difference of the
two integers is exact, and the product `num * |extent - squareSize| / 2 ^ exp` is rounded to
a double, with the sign of the difference. The extents are DOM pixel counts (below `2 ^ 31`). -/
def randomOffset (r : Draw) (extent squareSize : Nat) : Frac :=
  { num := Int.sign ((extent : Int) - (squareSize : Int)) *
      (roundNat53 (r.num * ((extent : Int) - (squareSize : Int)).natAbs) : Int),
    den := 2 ^ r.exp }

/-- The callback `moveSquare` (lines 67-86) of a render whose `currentSquareType.size`
is `squareSize`. -/
def moveSquare (squareSize : Nat) (m : MoveInput) (g : Game) : Game :=
  match m.gameArea with
  | none => g
  | some gameArea =>
    { g with
      squarePosition :=
        { top := .px (randomOffset m.randTop gameArea.offsetHeight squareSize),
          left := .px (randomOffset m.randLeft gameArea.offsetWidth squareSize) },
      currentSquareType := randomSquareType m.randType }

/-- The time-left tick (lines 113-131), with the bindings `env` of its `startGame`. -/
def gameTimerTick (env : Closure) (g : Game) : Game :=
  if g.timeLeft ≤ 1 then
    let g1 := clearInterval g.gameTimerRef g
    let g2 := clearInterval g1.squareMoveIntervalRef g1
    let g3 := { g2 with gameStarted := false, countdown := 0 }
    let g4 :=
      if env.score > g3.highScore then
        { g3 with storedHighScore := some env.score, highScore := env.score }
      else g3
    { g4 with timeLeft := 0 }
  else { g with timeLeft := g.timeLeft - 1 }

/-- The square-move tick (lines 135-144), with the bindings `env` of its `startGame`. -/
def squareMoveTick (env : Closure) (m : MoveInput) (g : Game) : Game :=
  let g1 := moveSquare env.squareSize m g
  if env.timeLeft > 0 ∧ env.timeLeft % 3 = 0 ∧ g1.currentMoveSpeedRef > 100 then
    let g2 := { g1 with currentMoveSpeedRef := max 100 (g1.currentMoveSpeedRef - 50) }
    let g3 := clearInterval g2.squareMoveIntervalRef g2
    let r := setInterval .moveOnly g3.currentMoveSpeedRef env g3
    { r.1 with squareMoveIntervalRef := some r.2 }
  else g1

/-- The countdown tick (lines 105-150), with the bindings `env` of its `startGame`. -/
def countdownTick (env : Closure) (m : MoveInput) (g : Game) : Game :=
  if g.countdown ≤ 1 then
    let g1 := clearInterval g.countdownTimerRef g
    let g2 := { g1 with gameStarted := true }
    let g3 := moveSquare env.squareSize m g2
    let r := setInterval .gameTimer 1000 env g3
    let g4 := { r.1 with gameTimerRef := some r.2 }
    let r2 := setInterval .squareMove g4.currentMoveSpeedRef env g4
    let g5 := { r2.1 with squareMoveIntervalRef := some r2.2 }
    { g5 with countdown := 0 }
  else { g with countdown := g.countdown - 1 }

/-- The handler `startGame` (lines 89-151), created in the render of state `g`. -/
def startGame (g : Game) : Game :=
  let env : Closure :=
    { score := g.score, timeLeft := g.timeLeft, squareSize := g.currentSquareType.size }
  let g1 := { g with score := 0, timeLeft := 15, countdown := 3, gameStarted := false,
                     currentMoveSpeedRef := 800 }
  let g2 := clearInterval g1.gameTimerRef g1
  let g3 := clearInterval g2.countdownTimerRef g2
  let g4 := clearInterval g3.squareMoveIntervalRef g3
  let r := setInterval .countdown 1000 env g4
  { r.1 with countdownTimerRef := some r.2 }

/-- The handler `handleSquareClick` (lines 154-166), created in the render of state `g`. -/
def handleSquareClick (m : MoveInput) (g : Game) : Game :=
  if g.gameStarted then
    let g1 := { g with score := g.score + g.currentSquareType.points }
    let g2 := moveSquare g.currentSquareType.size m g1
    { g2 with isClicked := true, feedbackTimeouts := g2.feedbackTimeouts + 1 }
  else g

/-- The timeout of line 162: `setIsClicked(false)` after 100 ms. -/
def feedbackTimeout (g : Game) : Game :=
  if g.feedbackTimeouts = 0 then g
  else { g with isClicked := false, feedbackTimeouts := g.feedbackTimeouts - 1 }

/-- The registered interval with the given id, if any. -/
def findTimer (id : Nat) (g : Game) : Option Timer :=
  g.timers.find? (fun t => t.id == id)

/-- The interval `id` fires: its callback runs if the interval is still registered. -/
def timerFire (id : Nat) (m : MoveInput) (g : Game) : Game :=
  match findTimer id g with
  | none => g
  | some t =>
    match t.kind with
    | .countdown => countdownTick t.env m g
    | .gameTimer => gameTimerTick t.env g
    | .squareMove => squareMoveTick t.env m g
    | .moveOnly => moveSquare t.env.squareSize m g

/-- What can happen to the mounted component. -/
inductive Event where
  | startGame
  | squareClick (m : MoveInput)
  | timerFire (id : Nat) (m : MoveInput)
  | feedbackTimeout
deriving DecidableEq, Repr

/-- One event, handled by the closure of the latest render. -/
def step (g : Game) : Event → Game
  | .startGame => startGame g
  | .squareClick m => handleSquareClick m g
  | .timerFire id m => timerFire id m g
  | .feedbackTimeout => feedbackTimeout g

/-- A sequence of events in order. -/
def run (g : Game) (events : List Event) : Game :=
  events.foldl step g

/-- The states the component can be in: those some event sequence leads to from mount. -/
def Reachable (g : Game) : Prop :=
  ∃ (saved : Option Nat) (events : List Event), g = run (Game.init saved) events

/-- The point values of the variants clicked while the round was active, in order. -/
def clickedPoints (g : Game) : List Event → List Nat
  | [] => []
  | .squareClick m :: rest =>
    (if g.gameStarted then [g.currentSquareType.points] else []) ++
      clickedPoints (step g (.squareClick m)) rest
  | e :: rest => clickedPoints (step g e) rest

/-- The doubles that JavaScript writes `0`, `0.1`, ..., `0.9`: the double nearest to each
tenth, as significand over a power of two. -/
def tenth : Fin 10 → Draw
  | 0 => ⟨0, 53, by decide, by decide, by decide⟩
  | 1 => ⟨7205759403792794, 56, by decide, by decide, by decide⟩
  | 2 => ⟨7205759403792794, 55, by decide, by decide, by decide⟩
  | 3 => ⟨5404319552844595, 54, by decide, by decide, by decide⟩
  | 4 => ⟨7205759403792794, 54, by decide, by decide, by decide⟩
  | 5 => ⟨4503599627370496, 53, by decide, by decide, by decide⟩
  | 6 => ⟨5404319552844595, 53, by decide, by decide, by decide⟩
  | 7 => ⟨6305039478318694, 53, by decide, by decide, by decide⟩
  | 8 => ⟨7205759403792794, 53, by decide, by decide, by decide⟩
  | 9 => ⟨8106479329266893, 53, by decide, by decide, by decide⟩

/-- Sample platform readings for worked examples: a 400 x 320 game area and the draws
`0.top`, `0.left` and `0.type` (one decimal each). -/
def sampleMove (top left type : Fin 10) : MoveInput :=
  { gameArea := some { offsetWidth := 400, offsetHeight := 320 },
    randTop := tenth top, randLeft := tenth left, randType := tenth type }

/-- Worked example: a press of the start button and the three ticks of the countdown
interval `id` it registers; the last tick draws the medium variant. -/
def startAndCountDown (id : Nat) : List Event :=
  [.startGame, .timerFire id (sampleMove 0 0 0), .timerFire id (sampleMove 0 0 0),
   .timerFire id (sampleMove 5 5 5)]

/-- Worked example: the first round after mount, just become active. Its countdown interval
has id 1, its time-left interval id 2 and its square-move interval id 3. -/
def firstRoundActive : Game :=
  run (Game.init none) (startAndCountDown 1)

/-- Worked example: `n` ticks of the time-left interval `id`. -/
def timeLeftTicks (id n : Nat) : List Event :=
  List.replicate n (.timerFire id (sampleMove 0 0 0))

/-- Worked example: the first three seconds of the first round in firing order. The
square-move interval 3 (800 ms) fires at 0.8 s and re-creates itself as interval 4
(750 ms), which fires at 1.55 s and 2.3 s; the time-left interval 2 fires at 1, 2 and 3 s. -/
def firstRoundOpening : List Event :=
  [.timerFire 3 (sampleMove 3 3 3), .timerFire 2 (sampleMove 0 0 0),
   .timerFire 4 (sampleMove 6 1 8), .timerFire 2 (sampleMove 0 0 0),
   .timerFire 4 (sampleMove 2 7 4), .timerFire 2 (sampleMove 0 0 0)]

/-- Worked example: each later block of three seconds of the first round in firing order:
interval 4 (750 ms) fires four times, the time-left interval 2 three times. -/
def firstRoundBlock : List Event :=
  [.timerFire 4 (sampleMove 1 1 1), .timerFire 4 (sampleMove 8 2 5),
   .timerFire 2 (sampleMove 0 0 0), .timerFire 4 (sampleMove 4 4 9),
   .timerFire 2 (sampleMove 0 0 0), .timerFire 4 (sampleMove 7 3 0),
   .timerFire 2 (sampleMove 0 0 0)]

/-- Worked example: the fifteen seconds of the first round. -/
def firstRoundTicks : List Event :=
  firstRoundOpening ++ firstRoundBlock ++ firstRoundBlock ++ firstRoundBlock ++ firstRoundBlock

/-- Worked example: the first round played to its end with a single click, made on the
medium square before the first relocation. -/
def firstRoundEnded : Game :=
  run firstRoundActive
    (.squareClick (sampleMove 1 2 0) :: .feedbackTimeout :: firstRoundTicks)

/-- Worked example: the first three seconds of the round replayed from `firstRoundEnded`
(countdown interval 5, time-left interval 6, square-move interval 7 at 800 ms). -/
def replayOpening : List Event :=
  [.timerFire 7 (sampleMove 3 3 3), .timerFire 6 (sampleMove 0 0 0),
   .timerFire 7 (sampleMove 6 1 8), .timerFire 6 (sampleMove 0 0 0),
   .timerFire 7 (sampleMove 2 7 4), .timerFire 6 (sampleMove 0 0 0)]

/-- Worked example: a block of four seconds of the replayed round in firing order: the
square-move interval 7 (800 ms) fires five times, the time-left interval 6 four times. -/
def replayBlock : List Event :=
  [.timerFire 7 (sampleMove 3 3 3), .timerFire 6 (sampleMove 0 0 0),
   .timerFire 7 (sampleMove 6 1 8), .timerFire 6 (sampleMove 0 0 0),
   .timerFire 7 (sampleMove 2 7 4), .timerFire 6 (sampleMove 0 0 0),
   .timerFire 7 (sampleMove 5 5 5), .timerFire 6 (sampleMove 0 0 0),
   .timerFire 7 (sampleMove 9 0 2)]

/-- Worked example: the round replayed from `firstRoundEnded` played to its end without a
click. -/
def replayEnded : Game :=
  run firstRoundEnded
    (startAndCountDown 5 ++ replayBlock ++ replayBlock ++ replayBlock ++ replayOpening)

/-- Worked example: the first round 0.8 s in, after the first relocation drew the small
variant (size 30). -/
def smallSquareShown : Game :=
  run firstRoundActive [.timerFire 3 (sampleMove 3 3 0)]

/-- Worked example: a click on that small square whose `moveSquare` draws 0.9 for the top,
0.9 for the left and 0.9 for the variant. -/
def clickedNearCorner : Game :=
  handleSquareClick (sampleMove 9 9 9) smallSquareShown

/-- No interval is registered and the square is not shown: the idle screen before the
first round, or the ended screen after a round. -/
def Stopped (g : Game) : Prop :=
  g.timers = [] ∧ g.gameStarted = false ∧
    (g.currentMoveSpeedRef = 800 ∨ g.currentMoveSpeedRef = 750)

/-- The countdown interval is the one registered interval. -/
def CountingDown (g : Game) : Prop :=
  ∃ t, g.timers = [t] ∧ t.kind = .countdown ∧ g.countdownTimerRef = some t.id ∧
    t.id < g.nextTimerId ∧ g.gameStarted = false ∧ g.currentMoveSpeedRef = 800

/-- The round is active: the time-left interval and one square-move interval are the
registered intervals, both refs point at them, and the square-move interval runs at the
stored speed: 800 while it is the adjusting callback, 750 once it was re-created. -/
def Active (g : Game) : Prop :=
  ∃ tg tm, g.timers = [tg, tm] ∧ tg.kind = .gameTimer ∧ g.gameTimerRef = some tg.id ∧
    g.squareMoveIntervalRef = some tm.id ∧ tg.id < tm.id ∧ tm.id < g.nextTimerId ∧
    g.gameStarted = true ∧ tm.delay = g.currentMoveSpeedRef ∧
    ((tm.kind = .squareMove ∧ g.currentMoveSpeedRef = 800) ∨
      (tm.kind = .moveOnly ∧ g.currentMoveSpeedRef = 750))

/-- The shape every reachable state has. -/
def Inv (g : Game) : Prop :=
  Stopped g ∨ CountingDown g ∨ Active g

/-- The offset a CSS length stands for along an axis of the given extent, as a fraction:
a percentage is taken of the extent of the containing game area. -/
def CssLength.toFrac (extent : Nat) : CssLength → Frac
  | .percent n => { num := (n : Int) * (extent : Int), den := 100 }
  | .px v => v

/-- The span from `offset` to `offset + size` lies between 0 and `extent`; the comparison
of the fraction is multiplied out by its denominator, which is positive for every offset
the component computes. -/
def spanWithin (offset : Frac) (size extent : Nat) : Prop :=
  0 ≤ offset.num ∧
    offset.num + (size : Int) * (offset.den : Int) ≤ (extent : Int) * (offset.den : Int)

/-- Whether a span lies within the extent can be computed. -/
instance spanWithinDecidable (offset : Frac) (size extent : Nat) :
    Decidable (spanWithin offset size extent) :=
  inferInstanceAs (Decidable (_ ∧ _))

/-- The square as displayed (lines 224-233), at `squarePosition` with the width and height
of the current variant, lies inside the game area. -/
def displayedWithin (area : GameArea) (g : Game) : Prop :=
  spanWithin (g.squarePosition.top.toFrac area.offsetHeight) g.currentSquareType.size
      area.offsetHeight ∧
    spanWithin (g.squarePosition.left.toFrac area.offsetWidth) g.currentSquareType.size
      area.offsetWidth

/-- Whether the displayed square lies inside the game area can be computed. -/
instance displayedWithinDecidable (area : GameArea) (g : Game) :
    Decidable (displayedWithin area g) :=
  inferInstanceAs (Decidable (_ ∧ _))

/-- The number of events that are ticks of a registered time-left interval. -/
def timeLeftTickCount (g : Game) : List Event → Nat
  | [] => 0
  | .timerFire id m :: rest =>
    (match findTimer id g with
     | some t => if t.kind = .gameTimer then 1 else 0
     | none => 0) + timeLeftTickCount (step g (.timerFire id m)) rest
  | e :: rest => timeLeftTickCount (step g e) rest

/-- Where a round stands after `ticks` ticks of its time-left interval: counting down with
the full 15 seconds ahead, active with `15 - ticks` seconds left, or ended. -/
def RoundPhase (g : Game) (ticks : Nat) : Prop :=
  (CountingDown g ∧ g.timeLeft = 15 ∧ ticks = 0) ∨
    (Active g ∧ g.timeLeft + ticks = 15 ∧ ticks < 15) ∨
    (Stopped g ∧ g.timeLeft = 0 ∧ ticks = 15)

end ClickTheSquare

/-! ## Properties of `trim` -/

namespace Js

theorem trimEnd_eq_nil_iff (cs : List Char) :
    trimEnd cs = [] ↔ ∀ c ∈ cs, isWhiteSpace c = true := by
  unfold trimEnd
  rw [List.reverse_eq_nil_iff, List.dropWhile_eq_nil_iff]
  constructor
  · intro h c hc
    exact h c (List.mem_reverse.mpr hc)
  · intro h c hc
    exact h c (List.mem_reverse.mp hc)

/-- A text trims to the empty string exactly when it is empty or white space only. -/
theorem trim_eq_empty_iff (s : String) :
    trim s = "" ↔ ∀ c ∈ s.data, isWhiteSpace c = true := by
  have hmk : trim s = "" ↔ trimEnd (s.data.dropWhile isWhiteSpace) = [] := by
    unfold trim
    constructor
    · intro h
      exact congrArg String.data h
    · intro h
      rw [h]
  rw [hmk, trimEnd_eq_nil_iff]
  constructor
  · intro h
    have hnil : s.data.dropWhile isWhiteSpace = [] := by
      by_contra hne
      have hhead := List.head_dropWhile_not isWhiteSpace s.data hne
      have hws := h _ (List.head_mem hne)
      rw [hws] at hhead
      exact absurd hhead (by decide)
    exact List.dropWhile_eq_nil_iff.mp hnil
  · intro h
    rw [List.dropWhile_eq_nil_iff.mpr h]
    intro c hc
    cases hc

end Js

/-! ## Note takers: adding -/

/-- C2: in both note takers, when the input text trims to the empty string, `handleAddNote`
returns the state it was given: the note list, the input and (in the categorized variant)
the selected category are all unchanged. -/
theorem add_blank_ignored (clock : Js.Clock) (t : String) (ht : Js.trim t = "")
    (notes : List NoteTaker.Note) (s : NoteTake2.App) :
    NoteTaker.handleAddNote clock { notes := notes, newNote := t }
        = { notes := notes, newNote := t } ∧
      NoteTake2.handleAddNote clock { s with newNote := t } = { s with newNote := t } := by
  constructor
  · simp [NoteTaker.handleAddNote, ht]
  · simp [NoteTake2.handleAddNote, ht]

theorem add_blank_ignored_witness :
    Js.trim " \t " = "" ∧
      NoteTaker.handleAddNote ⟨1000, "11/6/2026"⟩
          { notes := [⟨1, "Buy milk", "11/5/2026"⟩], newNote := " \t " }
        = { notes := [⟨1, "Buy milk", "11/5/2026"⟩], newNote := " \t " } ∧
      NoteTake2.handleAddNote ⟨1000, "11/6/2026"⟩
          { NoteTake2.App.init none with selectedCategory := "Research", newNote := " \t " }
        = { NoteTake2.App.init none with selectedCategory := "Research", newNote := " \t " } :=
  ⟨by decide,
   add_blank_ignored ⟨1000, "11/6/2026"⟩ " \t " (by decide) [⟨1, "Buy milk", "11/5/2026"⟩]
     { NoteTake2.App.init none with selectedCategory := "Research" }⟩

/-- Every category of `STUDY_CATEGORIES` is mapped to the color listed with it. -/
theorem categoryColor_of_mem :
    ∀ cat ∈ NoteTake2.STUDY_CATEGORIES, NoteTake2.categoryColor cat.name = cat.color := by
  decide

/-- A category outside `STUDY_CATEGORIES` gets the fallback color. -/
theorem categoryColor_of_not_mem (c : String)
    (h : ∀ cat ∈ NoteTake2.STUDY_CATEGORIES, cat.name ≠ c) :
    NoteTake2.categoryColor c = "bg-gray-200" := by
  have hnone : NoteTake2.STUDY_CATEGORIES.find? (fun cat => cat.name == c) = none := by
    rw [List.find?_eq_none]
    intro cat hcat
    simpa using h cat hcat
  simp [NoteTake2.categoryColor, hnone]

/-- C3: in both note takers, when the input text `t` does not trim to the empty string,
`handleAddNote` yields the old list followed by exactly one new note with text `trim t`,
id `Date.now()` and date the locale date label (categorized: also the selected category
and its mapped color), so the length grows by one and every earlier entry keeps its position
and content; the input is reset to empty. -/
theorem add_appends_one (clock : Js.Clock) (t : String) (ht : Js.trim t ≠ "")
    (notes : List NoteTaker.Note) (s : NoteTake2.App) :
    (NoteTaker.handleAddNote clock { notes := notes, newNote := t }
        = { notes := notes ++ [{ id := clock.now, text := Js.trim t, date := clock.localeDate }],
            newNote := "" } ∧
      (NoteTaker.handleAddNote clock { notes := notes, newNote := t }).notes.length
        = notes.length + 1 ∧
      ∀ i, i < notes.length →
        (NoteTaker.handleAddNote clock { notes := notes, newNote := t }).notes[i]? = notes[i]?) ∧
    (NoteTake2.handleAddNote clock { s with newNote := t }
        = { s with
            notes := s.notes ++ [{ id := clock.now, text := Js.trim t, date := clock.localeDate,
                                   category := s.selectedCategory,
                                   color := NoteTake2.categoryColor s.selectedCategory }],
            newNote := "", selectedCategory := "General" } ∧
      (NoteTake2.handleAddNote clock { s with newNote := t }).notes.length
        = s.notes.length + 1 ∧
      (∀ i, i < s.notes.length →
        (NoteTake2.handleAddNote clock { s with newNote := t }).notes[i]? = s.notes[i]?) ∧
      ∀ cat ∈ NoteTake2.STUDY_CATEGORIES, s.selectedCategory = cat.name →
        NoteTake2.categoryColor s.selectedCategory = cat.color) := by
  have h1 : NoteTaker.handleAddNote clock { notes := notes, newNote := t }
      = { notes := notes ++ [{ id := clock.now, text := Js.trim t, date := clock.localeDate }],
          newNote := "" } := by
    simp [NoteTaker.handleAddNote, ht]
  have h2 : NoteTake2.handleAddNote clock { s with newNote := t }
      = { s with
          notes := s.notes ++ [{ id := clock.now, text := Js.trim t, date := clock.localeDate,
                                 category := s.selectedCategory,
                                 color := NoteTake2.categoryColor s.selectedCategory }],
          newNote := "", selectedCategory := "General" } := by
    simp [NoteTake2.handleAddNote, ht, NoteTake2.defaultCategory, NoteTake2.STUDY_CATEGORIES]
  refine ⟨⟨h1, ?_, ?_⟩, h2, ?_, ?_, ?_⟩
  · rw [h1]; simp
  · intro i hi
    rw [h1]
    exact List.getElem?_append_left hi
  · rw [h2]; simp
  · intro i hi
    rw [h2]
    exact List.getElem?_append_left hi
  · intro cat hcat hsel
    rw [hsel]
    exact categoryColor_of_mem cat hcat

theorem add_appends_one_witness :
    Js.trim "  Buy milk " ≠ "" ∧
      (NoteTaker.handleAddNote ⟨1000, "11/6/2026"⟩ { notes := [], newNote := "  Buy milk " }).notes
        = [⟨1000, "Buy milk", "11/6/2026"⟩] ∧
      (NoteTake2.handleAddNote ⟨1000, "11/6/2026"⟩
          { NoteTake2.App.init none with selectedCategory := "Research",
                                         newNote := "  Buy milk " }).notes
        = [⟨1000, "Buy milk", "11/6/2026", "Research", "bg-indigo-200"⟩] := by
  have h := add_appends_one ⟨1000, "11/6/2026"⟩ "  Buy milk " (by decide) []
    { NoteTake2.App.init none with selectedCategory := "Research" }
  refine ⟨by decide, ?_, ?_⟩
  · rw [h.1.1]
    decide
  · rw [h.2.1]
    decide

/-! ## Note takers: deleting -/

/-- Filtering out one key: the survivors and the entries carrying the key add up to the
whole list. -/
theorem length_filter_ne_add_countP {α : Type} (key : α → Nat) (id : Nat) (l : List α) :
    (l.filter (fun a => decide (key a ≠ id))).length
        + l.countP (fun a => decide (key a = id)) = l.length := by
  induction l with
  | nil => rfl
  | cons a rest ih =>
    have hfilter : (List.filter (fun b => decide (key b ≠ id)) (a :: rest)).length
        = (List.filter (fun b => decide (key b ≠ id)) rest).length
          + (if key a = id then 0 else 1) := by
      by_cases h : key a = id <;> simp [List.filter_cons, h]
    have hcountP : List.countP (fun b => decide (key b = id)) (a :: rest)
        = List.countP (fun b => decide (key b = id)) rest + (if key a = id then 1 else 0) := by
      by_cases h : key a = id <;> simp [List.countP_cons, h]
    rw [hfilter, hcountP, List.length_cons]
    by_cases h : key a = id
    · rw [if_pos h, if_pos h]
      omega
    · rw [if_neg h, if_neg h]
      omega

/-- When the keys of a list are pairwise distinct, a key that occurs is carried by exactly
one entry. -/
theorem countP_key_eq_one_of_nodup {α : Type} (key : α → Nat) (id : Nat) (l : List α)
    (hnodup : (l.map key).Nodup) (hmem : ∃ a ∈ l, key a = id) :
    l.countP (fun a => decide (key a = id)) = 1 := by
  induction l with
  | nil =>
    obtain ⟨a, ha, _⟩ := hmem
    cases ha
  | cons a rest ih =>
    rw [List.map_cons, List.nodup_cons] at hnodup
    by_cases h : key a = id
    · have hrest : rest.countP (fun b => decide (key b = id)) = 0 := by
        rw [List.countP_eq_zero]
        intro b hb
        have hne : key b ≠ id := by
          intro hbid
          apply hnodup.1
          rw [h, ← hbid]
          exact List.mem_map_of_mem key hb
        simpa using hne
      simp [List.countP_cons, h, hrest]
    · have hmem2 : ∃ b ∈ rest, key b = id := by
        obtain ⟨b, hb, hbid⟩ := hmem
        rcases List.mem_cons.mp hb with hba | hbrest
        · exact absurd (hba ▸ hbid) h
        · exact ⟨b, hbrest, hbid⟩
      simp [List.countP_cons, h, ih hnodup.2 hmem2]

/-- C4 (the code at the failing input): from empty storage, two notes added at the same
`Date.now()` value both get id 1000, against the comment `Unique ID for the note`; deleting
the first of them by its id removes both, in either note taker, so the list goes from two
entries to none where deleting one note should leave one. -/
theorem delete_same_id_removes_both :
    let clock : Js.Clock := ⟨1000, "11/6/2026"⟩
    let s1 := NoteTaker.handleAddNote clock
      (NoteTaker.setNewNote "b"
        (NoteTaker.handleAddNote clock (NoteTaker.setNewNote "a" (NoteTaker.App.init none))))
    let s2 := NoteTake2.handleAddNote clock
      { NoteTake2.handleAddNote clock { NoteTake2.App.init none with newNote := "a" }
        with newNote := "b" }
    (s1.notes = [⟨1000, "a", "11/6/2026"⟩, ⟨1000, "b", "11/6/2026"⟩] ∧
      (NoteTaker.handleDeleteNote 1000 s1).notes = [] ∧
      ¬ ((NoteTaker.handleDeleteNote 1000 s1).notes.length + 1 = s1.notes.length)) ∧
    (s2.notes.map (fun n => n.id) = [1000, 1000] ∧
      (NoteTake2.handleDeleteNote 1000 s2).notes = [] ∧
      ¬ ((NoteTake2.handleDeleteNote 1000 s2).notes.length + 1 = s2.notes.length)) := by
  decide

/-- What `handleDeleteNote id` computes on any list, in both note takers: exactly the notes
whose id differs from `id`, in their original order and unmodified, nothing else in the
state being touched. When the ids of the list are pairwise distinct and `id` occurs, exactly
one entry goes; when no note carries `id` the list is unchanged. -/
theorem delete_removes_matching (id : Nat) (s1 : NoteTaker.App) (s2 : NoteTake2.App) :
    ((NoteTaker.handleDeleteNote id s1).notes = s1.notes.filter (fun n => decide (n.id ≠ id)) ∧
      (NoteTaker.handleDeleteNote id s1).newNote = s1.newNote ∧
      List.Sublist (NoteTaker.handleDeleteNote id s1).notes s1.notes ∧
      (∀ n, n ∈ (NoteTaker.handleDeleteNote id s1).notes ↔ n ∈ s1.notes ∧ n.id ≠ id) ∧
      (NoteTaker.handleDeleteNote id s1).notes.length
          + s1.notes.countP (fun n => decide (n.id = id)) = s1.notes.length ∧
      (s1.notes.countP (fun n => decide (n.id = id)) = 1 →
        (NoteTaker.handleDeleteNote id s1).notes.length + 1 = s1.notes.length) ∧
      ((s1.notes.map (fun n => n.id)).Nodup → (∃ n ∈ s1.notes, n.id = id) →
        (NoteTaker.handleDeleteNote id s1).notes.length + 1 = s1.notes.length) ∧
      ((∀ n ∈ s1.notes, n.id ≠ id) → NoteTaker.handleDeleteNote id s1 = s1)) ∧
    ((NoteTake2.handleDeleteNote id s2).notes = s2.notes.filter (fun n => decide (n.id ≠ id)) ∧
      NoteTake2.handleDeleteNote id s2 = { s2 with notes := (NoteTake2.handleDeleteNote id s2).notes } ∧
      List.Sublist (NoteTake2.handleDeleteNote id s2).notes s2.notes ∧
      (∀ n, n ∈ (NoteTake2.handleDeleteNote id s2).notes ↔ n ∈ s2.notes ∧ n.id ≠ id) ∧
      (NoteTake2.handleDeleteNote id s2).notes.length
          + s2.notes.countP (fun n => decide (n.id = id)) = s2.notes.length ∧
      (s2.notes.countP (fun n => decide (n.id = id)) = 1 →
        (NoteTake2.handleDeleteNote id s2).notes.length + 1 = s2.notes.length) ∧
      ((s2.notes.map (fun n => n.id)).Nodup → (∃ n ∈ s2.notes, n.id = id) →
        (NoteTake2.handleDeleteNote id s2).notes.length + 1 = s2.notes.length) ∧
      ((∀ n ∈ s2.notes, n.id ≠ id) → NoteTake2.handleDeleteNote id s2 = s2)) := by
  have hcount1 := length_filter_ne_add_countP (fun n : NoteTaker.Note => n.id) id s1.notes
  have hcount2 := length_filter_ne_add_countP (fun n : NoteTake2.Note => n.id) id s2.notes
  have hnodup1 := countP_key_eq_one_of_nodup (fun n : NoteTaker.Note => n.id) id s1.notes
  have hnodup2 := countP_key_eq_one_of_nodup (fun n : NoteTake2.Note => n.id) id s2.notes
  refine ⟨⟨rfl, rfl, ?_, ?_, hcount1, ?_, ?_, ?_⟩, ⟨rfl, rfl, ?_, ?_, hcount2, ?_, ?_, ?_⟩⟩
  · exact List.filter_sublist _
  · intro n
    simp [NoteTaker.handleDeleteNote]
  · intro h
    have := hcount1
    simp only [NoteTaker.handleDeleteNote]
    omega
  · intro hnd hex
    have h := hnodup1 hnd hex
    have := hcount1
    simp only [NoteTaker.handleDeleteNote]
    omega
  · intro h
    have hfilter : s1.notes.filter (fun n => decide (n.id ≠ id)) = s1.notes := by
      rw [List.filter_eq_self]
      intro n hn
      simpa using h n hn
    simp only [NoteTaker.handleDeleteNote]
    rw [hfilter]
  · exact List.filter_sublist _
  · intro n
    simp [NoteTake2.handleDeleteNote]
  · intro h
    have := hcount2
    simp only [NoteTake2.handleDeleteNote]
    omega
  · intro hnd hex
    have h := hnodup2 hnd hex
    have := hcount2
    simp only [NoteTake2.handleDeleteNote]
    omega
  · intro h
    have hfilter : s2.notes.filter (fun n => decide (n.id ≠ id)) = s2.notes := by
      rw [List.filter_eq_self]
      intro n hn
      simpa using h n hn
    simp only [NoteTake2.handleDeleteNote]
    rw [hfilter]

/-- An instance on a list with pairwise distinct ids: deleting id 2 of three notes leaves
two, and deleting an id that no note carries changes nothing. -/
theorem delete_removes_matching_witness :
    (NoteTaker.handleDeleteNote 2
        { notes := [⟨1, "a", "d"⟩, ⟨2, "b", "d"⟩, ⟨3, "c", "d"⟩], newNote := "x" }).notes.length + 1
        = 3 ∧
      (NoteTake2.handleDeleteNote 7
        { NoteTake2.App.init (some [⟨1, "a", "d", "General", "bg-gray-200"⟩]) with
          newNote := "x" })
        = { NoteTake2.App.init (some [⟨1, "a", "d", "General", "bg-gray-200"⟩]) with
            newNote := "x" } :=
  have h := delete_removes_matching 2
    { notes := [⟨1, "a", "d"⟩, ⟨2, "b", "d"⟩, ⟨3, "c", "d"⟩], newNote := "x" }
    (NoteTake2.App.init none)
  have h2 := delete_removes_matching 7 (NoteTaker.App.init none)
    { NoteTake2.App.init (some [⟨1, "a", "d", "General", "bg-gray-200"⟩]) with newNote := "x" }
  ⟨h.1.2.2.2.2.2.1 (by decide), h2.2.2.2.2.2.2.2.2 (by decide)⟩

/-! ## Categorized note taker: editing -/

/-- C5: in the categorized note taker, when the draft text trims to the empty string,
`handleSaveEdit id` returns the state it was given, for every note list, id and draft
category: no note changes and the edit session (`editingNoteId`) and its draft stay. -/
theorem save_blank_rejected (id : Nat) (t : String) (ht : Js.trim t = "") (s : NoteTake2.App) :
    NoteTake2.handleSaveEdit id { s with editedNoteText := t }
      = { s with editedNoteText := t } := by
  simp [NoteTake2.handleSaveEdit, ht]

theorem save_blank_rejected_witness :
    Js.trim "  " = "" ∧
      NoteTake2.handleSaveEdit 1
          { NoteTake2.App.init (some [⟨1, "a", "d", "Research", "bg-indigo-200"⟩]) with
            editingNoteId := some 1, editedNoteCategory := "General", editedNoteText := "  " }
        = { NoteTake2.App.init (some [⟨1, "a", "d", "Research", "bg-indigo-200"⟩]) with
            editingNoteId := some 1, editedNoteCategory := "General", editedNoteText := "  " } :=
  ⟨by decide,
   save_blank_rejected 1 "  " (by decide)
     { NoteTake2.App.init (some [⟨1, "a", "d", "Research", "bg-indigo-200"⟩]) with
       editingNoteId := some 1, editedNoteCategory := "General" }⟩

/-- C6: in the categorized note taker, when the draft text `t` does not trim to empty,
`handleSaveEdit id` with draft category `c` yields a list of the same length in which, at
every position, a note carrying `id` has its text replaced by `trim t`, its category by `c`
and its color by the color mapped to `c` (the color listed with `c` in `STUDY_CATEGORIES`,
`bg-gray-200` when `c` is not listed) with id and date kept, and a note with another id is
unchanged; the input and the selected category are untouched. -/
theorem save_commits_edit (id : Nat) (t c : String) (ht : Js.trim t ≠ "") (s : NoteTake2.App) :
    let s1 :=
      NoteTake2.handleSaveEdit id { s with editedNoteText := t, editedNoteCategory := c }
    s1.notes.length = s.notes.length ∧
      (∀ (i : Nat) (n : NoteTake2.Note), s.notes[i]? = some n →
        s1.notes[i]? = some
          (if n.id = id then
            { id := n.id, text := Js.trim t, date := n.date, category := c,
              color := NoteTake2.categoryColor c }
           else n)) ∧
      (∀ cat ∈ NoteTake2.STUDY_CATEGORIES, c = cat.name →
        NoteTake2.categoryColor c = cat.color) ∧
      ((∀ cat ∈ NoteTake2.STUDY_CATEGORIES, cat.name ≠ c) →
        NoteTake2.categoryColor c = "bg-gray-200") ∧
      s1.newNote = s.newNote ∧ s1.selectedCategory = s.selectedCategory := by
  intro s1
  have hs1 : s1 = { s with
      notes := s.notes.map (fun note =>
        if note.id = id then
          { note with text := Js.trim t, category := c, color := NoteTake2.categoryColor c }
        else note),
      editingNoteId := none, editedNoteText := "", editedNoteCategory := "" } := by
    simp [s1, NoteTake2.handleSaveEdit, ht]
  refine ⟨?_, ?_, ?_, categoryColor_of_not_mem c, ?_, ?_⟩
  · rw [hs1]; simp
  · intro i n hn
    rw [hs1]
    simp only [List.getElem?_map, hn, Option.map_some']
  · intro cat hcat hc
    rw [hc]
    exact categoryColor_of_mem cat hcat
  · rw [hs1]
  · rw [hs1]

theorem save_commits_edit_witness :
    Js.trim " new text " ≠ "" ∧
      (NoteTake2.handleSaveEdit 2
        { NoteTake2.App.init (some [⟨1, "a", "d1", "General", "bg-gray-200"⟩,
                                    ⟨2, "b", "d2", "General", "bg-gray-200"⟩]) with
          editingNoteId := some 2, editedNoteText := " new text ",
          editedNoteCategory := "Research" }).notes[0]?
        = some ⟨1, "a", "d1", "General", "bg-gray-200"⟩ ∧
      (NoteTake2.handleSaveEdit 2
        { NoteTake2.App.init (some [⟨1, "a", "d1", "General", "bg-gray-200"⟩,
                                    ⟨2, "b", "d2", "General", "bg-gray-200"⟩]) with
          editingNoteId := some 2, editedNoteText := " new text ",
          editedNoteCategory := "Research" }).notes[1]?
        = some ⟨2, "new text", "d2", "Research", "bg-indigo-200"⟩ :=
  have h := save_commits_edit 2 " new text " "Research" (by decide)
    { NoteTake2.App.init (some [⟨1, "a", "d1", "General", "bg-gray-200"⟩,
                                ⟨2, "b", "d2", "General", "bg-gray-200"⟩]) with
      editingNoteId := some 2 }
  ⟨by decide,
   h.2.1 0 ⟨1, "a", "d1", "General", "bg-gray-200"⟩ (by decide),
   h.2.1 1 ⟨2, "b", "d2", "General", "bg-gray-200"⟩ (by decide)⟩

/-- The draft changes of an edit session touch only the two draft fields. -/
theorem applyDraftChanges_frame (changes : List NoteTake2.DraftChange) (s : NoteTake2.App) :
    (NoteTake2.applyDraftChanges s changes).notes = s.notes ∧
      (NoteTake2.applyDraftChanges s changes).newNote = s.newNote ∧
      (NoteTake2.applyDraftChanges s changes).selectedCategory = s.selectedCategory ∧
      (NoteTake2.applyDraftChanges s changes).editingNoteId = s.editingNoteId := by
  induction changes generalizing s with
  | nil => exact ⟨rfl, rfl, rfl, rfl⟩
  | cons change rest ih =>
    have h := ih (NoteTake2.applyDraftChange s change)
    have hstep : NoteTake2.applyDraftChanges s (change :: rest)
        = NoteTake2.applyDraftChanges (NoteTake2.applyDraftChange s change) rest := rfl
    rw [hstep]
    cases change <;> exact h

/-- C7: in the categorized note taker, after `handleEditClick` on any note and any sequence
of changes to the draft text and draft category, `handleCancelEdit` yields the state from
before the edit began with `editingNoteId` null and both draft fields empty; in particular
the note list is exactly the one from before the edit. -/
theorem cancel_discards_draft (s : NoteTake2.App) (note : NoteTake2.Note)
    (changes : List NoteTake2.DraftChange) :
    NoteTake2.handleCancelEdit
        (NoteTake2.applyDraftChanges (NoteTake2.handleEditClick note s) changes)
      = { s with editingNoteId := none, editedNoteText := "", editedNoteCategory := "" } ∧
    (NoteTake2.handleCancelEdit
        (NoteTake2.applyDraftChanges (NoteTake2.handleEditClick note s) changes)).notes
      = s.notes := by
  have h := applyDraftChanges_frame changes (NoteTake2.handleEditClick note s)
  have hall : NoteTake2.handleCancelEdit
        (NoteTake2.applyDraftChanges (NoteTake2.handleEditClick note s) changes)
      = { s with editingNoteId := none, editedNoteText := "", editedNoteCategory := "" } := by
    generalize NoteTake2.applyDraftChanges (NoteTake2.handleEditClick note s) changes = s1 at h
    cases s1
    cases s
    simp only [NoteTake2.handleEditClick] at h
    simp only [NoteTake2.handleCancelEdit]
    simp only [NoteTake2.App.mk.injEq, and_true, true_and]
    exact ⟨h.1, h.2.1, h.2.2.1⟩
  exact ⟨hall, by rw [hall]⟩

/-! ## Click the square: what each callback leaves alone -/

namespace ClickTheSquare

/-- The callback `moveSquare` changes at most the position and the variant. -/
theorem moveSquare_frame (squareSize : Nat) (m : MoveInput) (g : Game) :
    (moveSquare squareSize m g).score = g.score ∧
      (moveSquare squareSize m g).timeLeft = g.timeLeft ∧
      (moveSquare squareSize m g).gameStarted = g.gameStarted ∧
      (moveSquare squareSize m g).countdown = g.countdown ∧
      (moveSquare squareSize m g).highScore = g.highScore ∧
      (moveSquare squareSize m g).isClicked = g.isClicked ∧
      (moveSquare squareSize m g).gameTimerRef = g.gameTimerRef ∧
      (moveSquare squareSize m g).countdownTimerRef = g.countdownTimerRef ∧
      (moveSquare squareSize m g).squareMoveIntervalRef = g.squareMoveIntervalRef ∧
      (moveSquare squareSize m g).currentMoveSpeedRef = g.currentMoveSpeedRef ∧
      (moveSquare squareSize m g).timers = g.timers ∧
      (moveSquare squareSize m g).nextTimerId = g.nextTimerId ∧
      (moveSquare squareSize m g).feedbackTimeouts = g.feedbackTimeouts ∧
      (moveSquare squareSize m g).storedHighScore = g.storedHighScore := by
  unfold moveSquare
  cases m.gameArea <;> exact ⟨rfl, rfl, rfl, rfl, rfl, rfl, rfl, rfl, rfl, rfl, rfl, rfl, rfl, rfl⟩

/-- The call `clearInterval` changes at most the registered intervals. -/
theorem clearInterval_frame (ref : Option Nat) (g : Game) :
    (clearInterval ref g).score = g.score ∧
      (clearInterval ref g).timeLeft = g.timeLeft ∧
      (clearInterval ref g).gameStarted = g.gameStarted ∧
      (clearInterval ref g).countdown = g.countdown ∧
      (clearInterval ref g).highScore = g.highScore ∧
      (clearInterval ref g).isClicked = g.isClicked ∧
      (clearInterval ref g).gameTimerRef = g.gameTimerRef ∧
      (clearInterval ref g).countdownTimerRef = g.countdownTimerRef ∧
      (clearInterval ref g).squareMoveIntervalRef = g.squareMoveIntervalRef ∧
      (clearInterval ref g).currentMoveSpeedRef = g.currentMoveSpeedRef ∧
      (clearInterval ref g).nextTimerId = g.nextTimerId ∧
      (clearInterval ref g).feedbackTimeouts = g.feedbackTimeouts ∧
      (clearInterval ref g).storedHighScore = g.storedHighScore ∧
      (clearInterval ref g).squarePosition = g.squarePosition ∧
      (clearInterval ref g).currentSquareType = g.currentSquareType := by
  cases ref <;> exact ⟨rfl, rfl, rfl, rfl, rfl, rfl, rfl, rfl, rfl, rfl, rfl, rfl, rfl, rfl, rfl⟩

/-- Clearing keeps the intervals whose id is not the cleared one. -/
theorem clearInterval_timers (ref : Option Nat) (g : Game) :
    (clearInterval ref g).timers = g.timers.filter (fun t => decide (some t.id ≠ ref)) := by
  cases ref with
  | none =>
    have h : g.timers.filter (fun t => decide (some t.id ≠ none)) = g.timers := by
      rw [List.filter_eq_self]
      intro t _
      simp
    rw [h]
    rfl
  | some id =>
    have h : g.timers.filter (fun t => decide (some t.id ≠ some id))
        = g.timers.filter (fun t => decide (t.id ≠ id)) := by
      congr 1
      funext t
      simp
    rw [h]
    rfl

/-- The time-left tick never changes the score. -/
theorem gameTimerTick_score (env : Closure) (g : Game) :
    (gameTimerTick env g).score = g.score := by
  dsimp only [gameTimerTick]
  split_ifs <;> simp [clearInterval_frame]

/-- The square-move tick never changes the score. -/
theorem squareMoveTick_score (env : Closure) (m : MoveInput) (g : Game) :
    (squareMoveTick env m g).score = g.score := by
  dsimp only [squareMoveTick]
  split_ifs <;> simp [clearInterval_frame, moveSquare_frame, setInterval]

/-- The countdown tick never changes the score. -/
theorem countdownTick_score (env : Closure) (m : MoveInput) (g : Game) :
    (countdownTick env m g).score = g.score := by
  dsimp only [countdownTick]
  split_ifs <;> simp [clearInterval_frame, moveSquare_frame, setInterval]

/-- No interval callback changes the score. -/
theorem timerFire_score (id : Nat) (m : MoveInput) (g : Game) :
    (timerFire id m g).score = g.score := by
  unfold timerFire
  cases findTimer id g with
  | none => rfl
  | some t =>
    dsimp only
    cases t.kind with
    | countdown => exact countdownTick_score t.env m g
    | gameTimer => exact gameTimerTick_score t.env g
    | squareMove => exact squareMoveTick_score t.env m g
    | moveOnly => exact (moveSquare_frame t.env.squareSize m g).1

/-- The feedback timeout never changes the score. -/
theorem feedbackTimeout_score (g : Game) : (feedbackTimeout g).score = g.score := by
  unfold feedbackTimeout
  split_ifs <;> rfl

/-- A click on the square while the round is active: the score grows by the variant's
points; time, countdown, high score, the started flag, the intervals and the refs stay. -/
theorem handleSquareClick_active (m : MoveInput) (g : Game) (h : g.gameStarted = true) :
    (handleSquareClick m g).score = g.score + g.currentSquareType.points ∧
      (handleSquareClick m g).timeLeft = g.timeLeft ∧
      (handleSquareClick m g).countdown = g.countdown ∧
      (handleSquareClick m g).highScore = g.highScore ∧
      (handleSquareClick m g).gameStarted = g.gameStarted ∧
      (handleSquareClick m g).timers = g.timers ∧
      (handleSquareClick m g).nextTimerId = g.nextTimerId ∧
      (handleSquareClick m g).gameTimerRef = g.gameTimerRef ∧
      (handleSquareClick m g).countdownTimerRef = g.countdownTimerRef ∧
      (handleSquareClick m g).squareMoveIntervalRef = g.squareMoveIntervalRef ∧
      (handleSquareClick m g).currentMoveSpeedRef = g.currentMoveSpeedRef ∧
      (handleSquareClick m g).storedHighScore = g.storedHighScore := by
  simp [handleSquareClick, h, moveSquare_frame]

/-- A click on the square while the round is not active does nothing. -/
theorem handleSquareClick_inactive (m : MoveInput) (g : Game) (h : g.gameStarted = false) :
    handleSquareClick m g = g := by
  simp [handleSquareClick, h]

/-- Without a restart, the score grows by exactly the points of the clicked variants. -/
theorem run_score (events : List Event) (g : Game)
    (hnostart : ∀ e ∈ events, e ≠ Event.startGame) :
    (run g events).score = g.score + (clickedPoints g events).sum := by
  induction events generalizing g with
  | nil => simp [run, clickedPoints]
  | cons e rest ih =>
    have hrest : ∀ e2 ∈ rest, e2 ≠ Event.startGame :=
      fun e2 he2 => hnostart e2 (List.mem_cons_of_mem _ he2)
    have hrun : run g (e :: rest) = run (step g e) rest := rfl
    rw [hrun, ih (step g e) hrest]
    cases e with
    | startGame => exact absurd rfl (hnostart _ (List.mem_cons_self _ _))
    | squareClick m =>
      cases hstarted : g.gameStarted with
      | true =>
        have hclick := (handleSquareClick_active m g hstarted).1
        simp only [clickedPoints, hstarted, if_true, List.sum_append, List.sum_cons,
          List.sum_nil, step, hclick]
        omega
      | false =>
        simp [clickedPoints, hstarted, step, handleSquareClick_inactive m g hstarted]
    | timerFire id m =>
      simp only [clickedPoints, step, timerFire_score]
    | feedbackTimeout =>
      simp only [clickedPoints, step, feedbackTimeout_score]

end ClickTheSquare

/-- C8: when `gameStarted` is true, `handleSquareClick` adds the current variant's points
to the score (3 for small, 2 for medium, 1 for large) and leaves `timeLeft`, `countdown`,
`highScore` and `gameStarted` unchanged; hence after any events of a round that contain no
restart, the score is the score at the start plus the sum of the point values of the
variants clicked while the round was active, which from a freshly started round (score 0)
is that sum itself. -/
theorem click_scores_variant_points (g : ClickTheSquare.Game) (m : ClickTheSquare.MoveInput)
    (hstarted : g.gameStarted = true) :
    ((ClickTheSquare.handleSquareClick m g).score = g.score + g.currentSquareType.points ∧
      (ClickTheSquare.handleSquareClick m g).timeLeft = g.timeLeft ∧
      (ClickTheSquare.handleSquareClick m g).countdown = g.countdown ∧
      (ClickTheSquare.handleSquareClick m g).highScore = g.highScore ∧
      (ClickTheSquare.handleSquareClick m g).gameStarted = g.gameStarted) ∧
    ClickTheSquare.SQUARE_TYPES.map (fun v => (v.id, v.points))
      = [("small", 3), ("medium", 2), ("large", 1)] ∧
    (∀ events : List ClickTheSquare.Event, (∀ e ∈ events, e ≠ ClickTheSquare.Event.startGame) →
      (ClickTheSquare.run g events).score
        = g.score + (ClickTheSquare.clickedPoints g events).sum) ∧
    (∀ (g0 : ClickTheSquare.Game) (events : List ClickTheSquare.Event),
      (∀ e ∈ events, e ≠ ClickTheSquare.Event.startGame) →
      (ClickTheSquare.run (ClickTheSquare.startGame g0) events).score
        = (ClickTheSquare.clickedPoints (ClickTheSquare.startGame g0) events).sum) := by
  have hclick := ClickTheSquare.handleSquareClick_active m g hstarted
  refine ⟨⟨hclick.1, hclick.2.1, hclick.2.2.1, hclick.2.2.2.1, hclick.2.2.2.2.1⟩,
    by decide, ?_, ?_⟩
  · intro events hnostart
    exact ClickTheSquare.run_score events g hnostart
  · intro g0 events hnostart
    rw [ClickTheSquare.run_score events _ hnostart]
    have hzero : (ClickTheSquare.startGame g0).score = 0 := by
      simp [ClickTheSquare.startGame, ClickTheSquare.setInterval,
        ClickTheSquare.clearInterval_frame]
    omega

theorem click_scores_variant_points_witness :
    ClickTheSquare.firstRoundActive.gameStarted = true ∧
      ClickTheSquare.firstRoundActive.currentSquareType.points = 2 ∧
      (ClickTheSquare.handleSquareClick (ClickTheSquare.sampleMove 1 2 0)
        ClickTheSquare.firstRoundActive).score = 2 ∧
      (ClickTheSquare.run ClickTheSquare.firstRoundActive
        [.squareClick (ClickTheSquare.sampleMove 1 2 0),
         .squareClick (ClickTheSquare.sampleMove 4 4 4),
         .timerFire 3 (ClickTheSquare.sampleMove 3 3 9),
         .squareClick (ClickTheSquare.sampleMove 0 0 0),
         .timerFire 2 (ClickTheSquare.sampleMove 0 0 0)]).score = 2 + 3 + 1 :=
  have h := click_scores_variant_points ClickTheSquare.firstRoundActive
    (ClickTheSquare.sampleMove 1 2 0) (by decide)
  ⟨by decide, by decide, h.1.1.trans (by decide),
   (h.2.2.1
      [.squareClick (ClickTheSquare.sampleMove 1 2 0),
       .squareClick (ClickTheSquare.sampleMove 4 4 4),
       .timerFire 3 (ClickTheSquare.sampleMove 3 3 9),
       .squareClick (ClickTheSquare.sampleMove 0 0 0),
       .timerFire 2 (ClickTheSquare.sampleMove 0 0 0)] (by decide)).trans (by decide)⟩

/-! ## Click the square: the shape of reachable states -/

namespace ClickTheSquare

/-- The shape of a state depends only on the intervals, the refs, the started flag and
the stored speed. -/
theorem inv_congr (g g2 : Game) (ht : g2.timers = g.timers)
    (hs : g2.gameStarted = g.gameStarted) (hv : g2.currentMoveSpeedRef = g.currentMoveSpeedRef)
    (hg : g2.gameTimerRef = g.gameTimerRef) (hc : g2.countdownTimerRef = g.countdownTimerRef)
    (hm : g2.squareMoveIntervalRef = g.squareMoveIntervalRef)
    (hn : g2.nextTimerId = g.nextTimerId) (h : Inv g) : Inv g2 := by
  unfold Inv Stopped CountingDown Active at *
  rw [ht, hs, hv, hg, hc, hm, hn]
  exact h

/-- The mounted component is stopped. -/
theorem inv_init (saved : Option Nat) : Inv (Game.init saved) :=
  Or.inl ⟨rfl, rfl, Or.inl rfl⟩

/-- Moving the square keeps the shape. -/
theorem inv_moveSquare (squareSize : Nat) (m : MoveInput) (g : Game) (h : Inv g) :
    Inv (moveSquare squareSize m g) := by
  have hf := moveSquare_frame squareSize m g
  exact inv_congr g _ hf.2.2.2.2.2.2.2.2.2.2.1 hf.2.2.1 hf.2.2.2.2.2.2.2.2.2.1
    hf.2.2.2.2.2.2.1 hf.2.2.2.2.2.2.2.1 hf.2.2.2.2.2.2.2.2.1 hf.2.2.2.2.2.2.2.2.2.2.2.1 h

/-- A click keeps the shape. -/
theorem inv_handleSquareClick (m : MoveInput) (g : Game) (h : Inv g) :
    Inv (handleSquareClick m g) := by
  cases hstarted : g.gameStarted with
  | false => rw [handleSquareClick_inactive m g hstarted]; exact h
  | true =>
    have hf := handleSquareClick_active m g hstarted
    exact inv_congr g _ hf.2.2.2.2.2.1 hf.2.2.2.2.1 hf.2.2.2.2.2.2.2.2.2.2.1
      hf.2.2.2.2.2.2.2.1 hf.2.2.2.2.2.2.2.2.1 hf.2.2.2.2.2.2.2.2.2.1 hf.2.2.2.2.2.2.1 h

/-- The feedback timeout keeps the shape. -/
theorem inv_feedbackTimeout (g : Game) (h : Inv g) : Inv (feedbackTimeout g) := by
  unfold feedbackTimeout
  split_ifs
  · exact h
  · exact inv_congr g _ rfl rfl rfl rfl rfl rfl rfl h

/-- Every registered interval of a well-shaped state is the one a ref points at. -/
theorem inv_timers_referenced (g : Game) (h : Inv g) :
    ∀ t ∈ g.timers, some t.id = g.gameTimerRef ∨ some t.id = g.countdownTimerRef ∨
      some t.id = g.squareMoveIntervalRef := by
  intro t ht
  rcases h with ⟨hnil, _⟩ | ⟨t1, hts, _, href, _⟩ | ⟨tg, tm, hts, _, hgref, hmref, _⟩
  · rw [hnil] at ht; cases ht
  · rw [hts] at ht
    rw [List.mem_singleton] at ht
    rw [ht, href]; exact Or.inr (Or.inl rfl)
  · rw [hts] at ht
    simp only [List.mem_cons, List.mem_singleton, List.not_mem_nil, or_false] at ht
    rcases ht with ht | ht
    · rw [ht, hgref]; exact Or.inl rfl
    · rw [ht, hmref]; exact Or.inr (Or.inr rfl)

/-- From a well-shaped state `startGame` clears every interval and registers the
countdown alone. -/
theorem startGame_timers (g : Game) (h : Inv g) :
    (startGame g).timers
      = [{ id := g.nextTimerId, kind := .countdown, delay := 1000,
           env := { score := g.score, timeLeft := g.timeLeft,
                    squareSize := g.currentSquareType.size } }] := by
  have href := inv_timers_referenced g h
  have hnil : List.filter (fun t => decide (some t.id ≠ g.squareMoveIntervalRef))
      (List.filter (fun t => decide (some t.id ≠ g.countdownTimerRef))
        (List.filter (fun t => decide (some t.id ≠ g.gameTimerRef)) g.timers)) = [] := by
    rw [List.filter_filter, List.filter_filter, List.filter_eq_nil_iff]
    intro t ht
    rcases href t ht with h1 | h1 | h1 <;> simp [h1]
  simp only [startGame, setInterval, clearInterval_timers, clearInterval_frame, hnil,
    List.nil_append]

/-- After `startGame` the component is counting down. -/
theorem inv_startGame (g : Game) (h : Inv g) : Inv (startGame g) := by
  refine Or.inr (Or.inl ⟨_, startGame_timers g h, rfl, ?_, ?_, ?_, ?_⟩)
  · simp [startGame, setInterval, clearInterval_frame]
  · simp [startGame, setInterval, clearInterval_frame]
  · simp [startGame, setInterval, clearInterval_frame]
  · simp [startGame, setInterval, clearInterval_frame]

/-- A countdown tick keeps counting down or makes the round active. -/
theorem inv_countdownTick (env : Closure) (m : MoveInput) (g : Game) (h : CountingDown g) :
    Inv (countdownTick env m g) := by
  obtain ⟨t, hts, hk, href, hlt, hs, hv⟩ := h
  dsimp only [countdownTick]
  split_ifs
  · refine Or.inr (Or.inr ⟨⟨g.nextTimerId, .gameTimer, 1000, env⟩,
      ⟨g.nextTimerId + 1, .squareMove, 800, env⟩, ?_, rfl, ?_, ?_, ?_, ?_, ?_, ?_, ?_⟩)
    · simp [setInterval, clearInterval_frame, clearInterval_timers, moveSquare_frame, hts,
        href, hv]
    · simp [setInterval, clearInterval_frame, moveSquare_frame]
    · simp [setInterval, clearInterval_frame, moveSquare_frame]
    · simp
    · simp [setInterval, clearInterval_frame, moveSquare_frame]
    · simp [setInterval, clearInterval_frame, moveSquare_frame]
    · simp [setInterval, clearInterval_frame, moveSquare_frame, hv]
    · simp [setInterval, clearInterval_frame, moveSquare_frame, hv]
  · exact inv_congr g _ rfl rfl rfl rfl rfl rfl rfl 
      (Or.inr (Or.inl ⟨t, hts, hk, href, hlt, hs, hv⟩))

/-- A time-left tick keeps the round active or stops it. -/
theorem inv_gameTimerTick (env : Closure) (g : Game) (h : Active g) :
    Inv (gameTimerTick env g) := by
  obtain ⟨tg, tm, hts, hkg, hgref, hmref, hlt, hnext, hs, hdelay, hv⟩ := h
  have hspeed : g.currentMoveSpeedRef = 800 ∨ g.currentMoveSpeedRef = 750 := by
    rcases hv with ⟨_, h1⟩ | ⟨_, h1⟩
    · exact Or.inl h1
    · exact Or.inr h1
  dsimp only [gameTimerTick]
  split_ifs
  · refine Or.inl ⟨?_, ?_, ?_⟩
    · simp [clearInterval_frame, clearInterval_timers, hts, hgref, hmref]
    · simp
    · simpa [clearInterval_frame] using hspeed
  · refine Or.inl ⟨?_, ?_, ?_⟩
    · simp [clearInterval_frame, clearInterval_timers, hts, hgref, hmref]
    · simp
    · simpa [clearInterval_frame] using hspeed
  · exact inv_congr g _ rfl rfl rfl rfl rfl rfl rfl
      (Or.inr (Or.inr ⟨tg, tm, hts, hkg, hgref, hmref, hlt, hnext, hs, hdelay, hv⟩))

/-- The adjusting square-move tick, run at speed 800, keeps the round active. -/
theorem inv_squareMoveTick (env : Closure) (m : MoveInput) (g : Game) (h : Active g)
    (hspeed : g.currentMoveSpeedRef = 800) : Inv (squareMoveTick env m g) := by
  obtain ⟨tg, tm, hts, hkg, hgref, hmref, hlt, hnext, hs, hdelay, hv⟩ := h
  dsimp only [squareMoveTick]
  split_ifs
  · have hne : tg.id ≠ tm.id := Nat.ne_of_lt hlt
    refine Or.inr (Or.inr ⟨tg, ⟨g.nextTimerId, .moveOnly, 750, env⟩, ?_, hkg, ?_, ?_, ?_, ?_,
      ?_, ?_, ?_⟩)
    · simp [setInterval, clearInterval_frame, clearInterval_timers, moveSquare_frame, hts,
        hmref, hne, hspeed]
    · simp [setInterval, clearInterval_frame, moveSquare_frame, hgref]
    · simp [setInterval, clearInterval_frame, moveSquare_frame]
    · exact Nat.lt_trans hlt hnext
    · simp [setInterval, clearInterval_frame, moveSquare_frame]
    · simp [setInterval, clearInterval_frame, moveSquare_frame, hs]
    · simp [setInterval, clearInterval_frame, moveSquare_frame, hspeed]
    · simp [setInterval, clearInterval_frame, moveSquare_frame, hspeed]
  · exact inv_moveSquare env.squareSize m g
      (Or.inr (Or.inr ⟨tg, tm, hts, hkg, hgref, hmref, hlt, hnext, hs, hdelay, hv⟩))

/-- Firing any interval keeps the shape. -/
theorem inv_timerFire (id : Nat) (m : MoveInput) (g : Game) (h : Inv g) :
    Inv (timerFire id m g) := by
  rcases h with hstop | hcount | hact
  · have hfind : findTimer id g = none := by simp [findTimer, hstop.1]
    simp only [timerFire, hfind]
    exact Or.inl hstop
  · obtain ⟨t, hts, hk, href, hlt, hs, hv⟩ := hcount
    by_cases hid : t.id = id
    · have hfind : findTimer id g = some t := by simp [findTimer, hts, hid]
      simp only [timerFire, hfind, hk]
      exact inv_countdownTick t.env m g ⟨t, hts, hk, href, hlt, hs, hv⟩
    · have hfind : findTimer id g = none := by simp [findTimer, hts, hid]
      simp only [timerFire, hfind]
      exact Or.inr (Or.inl ⟨t, hts, hk, href, hlt, hs, hv⟩)
  · obtain ⟨tg, tm, hts, hkg, hgref, hmref, hlt, hnext, hs, hdelay, hv⟩ := hact
    have hact : Active g := ⟨tg, tm, hts, hkg, hgref, hmref, hlt, hnext, hs, hdelay, hv⟩
    by_cases hid : tg.id = id
    · have hfind : findTimer id g = some tg := by simp [findTimer, hts, hid]
      simp only [timerFire, hfind, hkg]
      exact inv_gameTimerTick tg.env g hact
    · by_cases hid2 : tm.id = id
      · have hfind : findTimer id g = some tm := by simp [findTimer, hts, hid, hid2]
        rcases hv with ⟨hkm, hspeed⟩ | ⟨hkm, hspeed⟩
        · simp only [timerFire, hfind, hkm]
          exact inv_squareMoveTick tm.env m g hact hspeed
        · simp only [timerFire, hfind, hkm]
          exact inv_moveSquare tm.env.squareSize m g (Or.inr (Or.inr hact))
      · have hfind : findTimer id g = none := by simp [findTimer, hts, hid, hid2]
        simp only [timerFire, hfind]
        exact Or.inr (Or.inr hact)

/-- Every event keeps the shape. -/
theorem inv_step (g : Game) (e : Event) (h : Inv g) : Inv (step g e) := by
  cases e with
  | startGame => exact inv_startGame g h
  | squareClick m => exact inv_handleSquareClick m g h
  | timerFire id m => exact inv_timerFire id m g h
  | feedbackTimeout => exact inv_feedbackTimeout g h

/-- Every event sequence keeps the shape. -/
theorem inv_run (events : List Event) (g : Game) (h : Inv g) : Inv (run g events) := by
  induction events generalizing g with
  | nil => exact h
  | cons e rest ih => exact ih (step g e) (inv_step g e h)

/-- Every reachable state has one of the three shapes. -/
theorem inv_of_reachable (g : Game) (h : Reachable g) : Inv g := by
  obtain ⟨saved, events, hg⟩ := h
  rw [hg]
  exact inv_run events _ (inv_init saved)

/-- In every reachable state the stored square-move speed is 800 or 750. -/
theorem moveSpeed_of_reachable (g : Game) (h : Reachable g) :
    g.currentMoveSpeedRef = 800 ∨ g.currentMoveSpeedRef = 750 := by
  rcases inv_of_reachable g h with hstop | hcount | hact
  · exact hstop.2.2
  · obtain ⟨t, _, _, _, _, _, hv⟩ := hcount
    exact Or.inl hv
  · obtain ⟨tg, tm, _, _, _, _, _, _, _, _, hv⟩ := hact
    rcases hv with ⟨_, h1⟩ | ⟨_, h1⟩
    · exact Or.inl h1
    · exact Or.inr h1

end ClickTheSquare

/-! ## Click the square: after the round has ended -/

namespace ClickTheSquare

/-- While stopped, every event other than a restart leaves the component stopped. -/
theorem stopped_step (g : Game) (e : Event) (h : Stopped g) (hne : e ≠ Event.startGame) :
    Stopped (step g e) := by
  cases e with
  | startGame => exact absurd rfl hne
  | squareClick m =>
    simp only [step, handleSquareClick_inactive m g h.2.1]
    exact h
  | timerFire id m =>
    have hfind : findTimer id g = none := by simp [findTimer, h.1]
    simp only [step, timerFire, hfind]
    exact h
  | feedbackTimeout =>
    simp only [step, feedbackTimeout]
    split_ifs
    · exact h
    · exact h

/-- While stopped, events without a restart leave the component stopped. -/
theorem stopped_run (events : List Event) (g : Game) (h : Stopped g)
    (hnostart : ∀ e ∈ events, e ≠ Event.startGame) : Stopped (run g events) := by
  induction events generalizing g with
  | nil => exact h
  | cons e rest ih =>
    exact ih (step g e) (stopped_step g e h (hnostart e (List.mem_cons_self _ _)))
      (fun e2 he2 => hnostart e2 (List.mem_cons_of_mem _ he2))

/-- The time-left tick that brings `timeLeft` to 0 in an active round stops the component. -/
theorem gameTimerTick_stops (env : Closure) (g : Game) (h : Active g)
    (hzero : (gameTimerTick env g).timeLeft = 0) : Stopped (gameTimerTick env g) := by
  obtain ⟨tg, tm, hts, hkg, hgref, hmref, hlt, hnext, hs, hdelay, hv⟩ := h
  have hspeed : g.currentMoveSpeedRef = 800 ∨ g.currentMoveSpeedRef = 750 := by
    rcases hv with ⟨_, h1⟩ | ⟨_, h1⟩
    · exact Or.inl h1
    · exact Or.inr h1
  dsimp only [gameTimerTick] at hzero ⊢
  split_ifs at hzero ⊢ with hle hhigh
  · refine ⟨?_, ?_, ?_⟩
    · simp [clearInterval_frame, clearInterval_timers, hts, hgref, hmref]
    · simp
    · simpa [clearInterval_frame] using hspeed
  · refine ⟨?_, ?_, ?_⟩
    · simp [clearInterval_frame, clearInterval_timers, hts, hgref, hmref]
    · simp
    · simpa [clearInterval_frame] using hspeed
  · simp only at hzero
    omega

/-- In a reachable state a registered time-left interval means the round is active. -/
theorem active_of_gameTimer (g : Game) (hreach : Reachable g) (id : Nat) (t : Timer)
    (hfind : findTimer id g = some t) (hkind : t.kind = .gameTimer) : Active g := by
  rcases inv_of_reachable g hreach with hstop | hcount | hact
  · simp [findTimer, hstop.1] at hfind
  · obtain ⟨t1, hts, hk, _⟩ := hcount
    by_cases hid : t1.id = id
    · simp [findTimer, hts, hid] at hfind
      rw [← hfind, hk] at hkind
      cases hkind
    · simp [findTimer, hts, hid] at hfind
  · exact hact

end ClickTheSquare

/-- C9: take any reachable state in which the time-left interval fires and brings `timeLeft`
to 0, then any later events that contain no `startGame`. In the state reached `gameStarted`
is false and `handleSquareClick` returns the state unchanged, so score, square position,
square variant and high score are what they were. -/
theorem click_after_time_up_ignored (g : ClickTheSquare.Game) (hreach : ClickTheSquare.Reachable g)
    (id : Nat) (t : ClickTheSquare.Timer) (m : ClickTheSquare.MoveInput)
    (hfind : ClickTheSquare.findTimer id g = some t)
    (hkind : t.kind = ClickTheSquare.TimerKind.gameTimer)
    (hzero : (ClickTheSquare.timerFire id m g).timeLeft = 0)
    (events : List ClickTheSquare.Event)
    (hnostart : ∀ e ∈ events, e ≠ ClickTheSquare.Event.startGame)
    (click : ClickTheSquare.MoveInput) :
    (ClickTheSquare.run (ClickTheSquare.timerFire id m g) events).gameStarted = false ∧
      ClickTheSquare.handleSquareClick click
          (ClickTheSquare.run (ClickTheSquare.timerFire id m g) events)
        = ClickTheSquare.run (ClickTheSquare.timerFire id m g) events ∧
      (ClickTheSquare.handleSquareClick click
          (ClickTheSquare.run (ClickTheSquare.timerFire id m g) events)).score
        = (ClickTheSquare.run (ClickTheSquare.timerFire id m g) events).score ∧
      (ClickTheSquare.handleSquareClick click
          (ClickTheSquare.run (ClickTheSquare.timerFire id m g) events)).squarePosition
        = (ClickTheSquare.run (ClickTheSquare.timerFire id m g) events).squarePosition ∧
      (ClickTheSquare.handleSquareClick click
          (ClickTheSquare.run (ClickTheSquare.timerFire id m g) events)).currentSquareType
        = (ClickTheSquare.run (ClickTheSquare.timerFire id m g) events).currentSquareType ∧
      (ClickTheSquare.handleSquareClick click
          (ClickTheSquare.run (ClickTheSquare.timerFire id m g) events)).highScore
        = (ClickTheSquare.run (ClickTheSquare.timerFire id m g) events).highScore := by
  have hact := ClickTheSquare.active_of_gameTimer g hreach id t hfind hkind
  have hfire : ClickTheSquare.timerFire id m g = ClickTheSquare.gameTimerTick t.env g := by
    simp only [ClickTheSquare.timerFire, hfind, hkind]
  rw [hfire] at hzero ⊢
  have hstop := ClickTheSquare.stopped_run events _
    (ClickTheSquare.gameTimerTick_stops t.env g hact hzero) hnostart
  have hclick := ClickTheSquare.handleSquareClick_inactive click _ hstop.2.1
  refine ⟨hstop.2.1, hclick, ?_, ?_, ?_, ?_⟩ <;> rw [hclick]

theorem click_after_time_up_ignored_witness :
    (ClickTheSquare.timerFire 2 (ClickTheSquare.sampleMove 0 0 0)
        (ClickTheSquare.run (ClickTheSquare.Game.init none)
          (ClickTheSquare.startAndCountDown 1 ++ ClickTheSquare.timeLeftTicks 2 14))).timeLeft = 0 ∧
      ClickTheSquare.handleSquareClick (ClickTheSquare.sampleMove 1 2 0)
          (ClickTheSquare.run
            (ClickTheSquare.timerFire 2 (ClickTheSquare.sampleMove 0 0 0)
              (ClickTheSquare.run (ClickTheSquare.Game.init none)
                (ClickTheSquare.startAndCountDown 1 ++ ClickTheSquare.timeLeftTicks 2 14)))
            [.squareClick (ClickTheSquare.sampleMove 4 4 4), .feedbackTimeout,
             .timerFire 3 (ClickTheSquare.sampleMove 3 3 9),
             .timerFire 2 (ClickTheSquare.sampleMove 0 0 0)])
        = ClickTheSquare.run
            (ClickTheSquare.timerFire 2 (ClickTheSquare.sampleMove 0 0 0)
              (ClickTheSquare.run (ClickTheSquare.Game.init none)
                (ClickTheSquare.startAndCountDown 1 ++ ClickTheSquare.timeLeftTicks 2 14)))
            [.squareClick (ClickTheSquare.sampleMove 4 4 4), .feedbackTimeout,
             .timerFire 3 (ClickTheSquare.sampleMove 3 3 9),
             .timerFire 2 (ClickTheSquare.sampleMove 0 0 0)] :=
  have h := click_after_time_up_ignored
    (ClickTheSquare.run (ClickTheSquare.Game.init none)
      (ClickTheSquare.startAndCountDown 1 ++ ClickTheSquare.timeLeftTicks 2 14))
    ⟨none, _, rfl⟩ 2
    { id := 2, kind := .gameTimer, delay := 1000,
      env := { score := 0, timeLeft := 15, squareSize := 50 } }
    (ClickTheSquare.sampleMove 0 0 0) (by decide) rfl (by decide)
    [.squareClick (ClickTheSquare.sampleMove 4 4 4), .feedbackTimeout,
     .timerFire 3 (ClickTheSquare.sampleMove 3 3 9),
     .timerFire 2 (ClickTheSquare.sampleMove 0 0 0)]
    (by decide) (ClickTheSquare.sampleMove 1 2 0)
  ⟨by decide, h.2.1⟩

/-! ## Click the square: the high score at the end of a round -/

namespace ClickTheSquare

/-- The time-left tick that ends a round compares the score captured by its `startGame`
(`env.score`) with the high score; the live `score` of the state plays no part. -/
theorem gameTimerTick_highScore (env : Closure) (g : Game) (h : g.timeLeft ≤ 1) :
    (gameTimerTick env g).highScore
        = (if env.score > g.highScore then env.score else g.highScore) ∧
      (gameTimerTick env g).storedHighScore
        = (if env.score > g.highScore then some env.score else g.storedHighScore) := by
  dsimp only [gameTimerTick]
  rw [if_pos h]
  simp only [clearInterval_frame]
  split_ifs <;> exact ⟨rfl, rfl⟩

end ClickTheSquare

/-- C1 (the code at the failing input): from a fresh mount with high score 0, the first
round is played with one click on the medium square and ends with score 2, yet the high
score is still 0 and nothing was stored; the round replayed from there without a click ends
with score 0, and only then the high score becomes 2 and 2 is stored. The end-of-round
comparison reads the score captured when the start button was pressed. -/
theorem high_score_compares_captured_score :
    (ClickTheSquare.Game.init none).highScore = 0 ∧
      (ClickTheSquare.firstRoundEnded.timeLeft = 0 ∧
        ClickTheSquare.firstRoundEnded.gameStarted = false ∧
        ClickTheSquare.firstRoundEnded.score = 2 ∧
        ClickTheSquare.firstRoundEnded.highScore = 0 ∧
        ClickTheSquare.firstRoundEnded.storedHighScore = none) ∧
      (ClickTheSquare.replayEnded.timeLeft = 0 ∧
        ClickTheSquare.replayEnded.gameStarted = false ∧
        ClickTheSquare.replayEnded.score = 0 ∧
        ClickTheSquare.replayEnded.highScore = 2 ∧
        ClickTheSquare.replayEnded.storedHighScore = some 2) := by
  decide

/-! ## Click the square: the square-move cadence -/

/-- C10 (the code at the failing input): six seconds into the first round the square-move
interval in force is 750 ms where the stated cadence gives 700 ms, and three seconds into a
replayed round it is still 800 ms where the stated cadence gives 750 ms. -/
theorem move_speed_after_six_seconds :
    ((ClickTheSquare.run ClickTheSquare.firstRoundActive
          (ClickTheSquare.firstRoundOpening ++ ClickTheSquare.firstRoundBlock)).timeLeft = 15 - 6 ∧
        (ClickTheSquare.run ClickTheSquare.firstRoundActive
          (ClickTheSquare.firstRoundOpening ++ ClickTheSquare.firstRoundBlock)).currentMoveSpeedRef
          = 750 ∧
        (ClickTheSquare.run ClickTheSquare.firstRoundActive
          (ClickTheSquare.firstRoundOpening ++ ClickTheSquare.firstRoundBlock)).timers.map
            (fun t => (t.kind, t.delay))
          = [(.gameTimer, 1000), (.moveOnly, 750)] ∧
        max 100 (800 - 50 * (6 / 3)) = 700) ∧
      ((ClickTheSquare.run ClickTheSquare.firstRoundEnded
          (ClickTheSquare.startAndCountDown 5 ++ ClickTheSquare.replayOpening)).timeLeft = 15 - 3 ∧
        (ClickTheSquare.run ClickTheSquare.firstRoundEnded
          (ClickTheSquare.startAndCountDown 5 ++ ClickTheSquare.replayOpening)).currentMoveSpeedRef
          = 800 ∧
        (ClickTheSquare.run ClickTheSquare.firstRoundEnded
          (ClickTheSquare.startAndCountDown 5 ++ ClickTheSquare.replayOpening)).timers.map
            (fun t => (t.kind, t.delay))
          = [(.gameTimer, 1000), (.squareMove, 800)] ∧
        max 100 (800 - 50 * (3 / 3)) = 750) := by
  decide

/-! ## Double rounding -/

namespace ClickTheSquare

/-- With enough fuel, `excessBits` is the shift that leaves 53 significant digits: `n` lies
below `2 ^ (53 + shift)` and, unless the shift is 0, at or above `2 ^ (52 + shift)`. -/
theorem excessBits_spec (fuel n : Nat) (h : n < 2 ^ (53 + fuel)) :
    n < 2 ^ (53 + excessBits fuel n) ∧
      (excessBits fuel n = 0 ∨ 2 ^ (52 + excessBits fuel n) ≤ n) := by
  induction fuel generalizing n with
  | zero => exact ⟨h, Or.inl rfl⟩
  | succ fuel ih =>
    by_cases hsmall : n < 2 ^ 53
    · have hzero : excessBits (fuel + 1) n = 0 := by simp only [excessBits, hsmall, if_true]
      rw [hzero]
      exact ⟨hsmall, Or.inl rfl⟩
    · have hstep : excessBits (fuel + 1) n = excessBits fuel (n / 2) + 1 := by
        simp only [excessBits, hsmall, if_false]
      have hhalf : n / 2 < 2 ^ (53 + fuel) := by
        have hpow : 2 ^ (53 + (fuel + 1)) = 2 ^ (53 + fuel) * 2 := by
          rw [← Nat.add_assoc, Nat.pow_succ]
        rw [hpow] at h
        omega
      obtain ⟨hlt, hge⟩ := ih (n / 2) hhalf
      rw [hstep]
      have hpow1 : 2 ^ (53 + (excessBits fuel (n / 2) + 1))
          = 2 ^ (53 + excessBits fuel (n / 2)) * 2 := by
        rw [← Nat.add_assoc, Nat.pow_succ]
      have hpow2 : 2 ^ (52 + (excessBits fuel (n / 2) + 1))
          = 2 ^ (52 + excessBits fuel (n / 2)) * 2 := by
        rw [← Nat.add_assoc, Nat.pow_succ]
      refine ⟨by rw [hpow1]; omega, Or.inr ?_⟩
      rw [hpow2]
      rcases hge with hzero | hge
      · rw [hzero]
        have : (2 : Nat) ^ (52 + 0) * 2 = 2 ^ 53 := by norm_num
        omega
      · omega

/-- The shift used by `roundNat53`. -/
theorem excessBits_self (n : Nat) :
    n < 2 ^ (53 + excessBits n n) ∧ (excessBits n n = 0 ∨ 2 ^ (52 + excessBits n n) ≤ n) := by
  apply excessBits_spec
  calc n < 2 ^ n := Nat.lt_two_pow n
    _ ≤ 2 ^ (53 + n) := Nat.pow_le_pow_right (by decide) (Nat.le_add_left _ _)

/-- A number with at most 53 significant binary digits is not changed by the rounding. -/
theorem roundNat53_of_lt (n : Nat) (h : n < 2 ^ 53) : roundNat53 n = n := by
  have hzero : excessBits n n = 0 := by
    cases n with
    | zero => rfl
    | succ k => simp only [excessBits, h, if_true]
  unfold roundNat53
  rw [hzero]
  norm_num
  split_ifs <;> omega

/-- The rounded number is the multiple of `2 ^ shift` just below `n` or just above it. -/
theorem roundNat53_cases (n : Nat) :
    roundNat53 n = n / 2 ^ excessBits n n * 2 ^ excessBits n n ∨
      roundNat53 n = (n / 2 ^ excessBits n n + 1) * 2 ^ excessBits n n := by
  unfold roundNat53
  dsimp only
  split_ifs
  · exact Or.inl rfl
  · exact Or.inr rfl
  · exact Or.inl rfl
  · exact Or.inr rfl

/-- The rounded number is within half a unit of the last kept digit of `n`: it is a nearest
one. -/
theorem roundNat53_near (n : Nat) (hbig : 2 ^ 53 ≤ n) :
    roundNat53 n ≤ n + 2 ^ (excessBits n n - 1) ∧
      n ≤ roundNat53 n + 2 ^ (excessBits n n - 1) := by
  obtain ⟨hlt, hge⟩ := excessBits_self n
  have hpos : excessBits n n ≠ 0 := by
    intro hzero
    rw [hzero] at hlt
    have : (2 : Nat) ^ (53 + 0) = 2 ^ 53 := rfl
    omega
  obtain ⟨s, hs⟩ : ∃ s, excessBits n n = s + 1 := ⟨excessBits n n - 1, by omega⟩
  have hdiv := Nat.div_add_mod n (2 ^ (s + 1))
  have hmod := Nat.mod_lt n (Nat.two_pow_pos (s + 1))
  have hpow : 2 ^ (s + 1) = 2 ^ s * 2 := Nat.pow_succ 2 s
  unfold roundNat53
  dsimp only
  rw [hs, Nat.add_sub_cancel]
  generalize n / 2 ^ (s + 1) = q at *
  generalize n % 2 ^ (s + 1) = rest at *
  rw [hpow] at hdiv hmod ⊢
  generalize 2 ^ s = half at *
  have hq : (q + 1) * (half * 2) = q * (half * 2) + half * 2 := by ring
  have hcomm : half * 2 * q = q * (half * 2) := by ring
  rw [hcomm] at hdiv
  split_ifs <;> rw [hq] at * <;> omega

/-- The product of a double below 1 and a pixel count, rounded to a double, is at most the
pixel count. -/
theorem roundNat53_mul_le (r : Draw) (k : Nat) (hk : k < 2 ^ 53) :
    roundNat53 (r.num * k) ≤ k * 2 ^ r.exp := by
  have hnum := r.num_lt
  have hexp := r.exp_ge
  have hpow : 2 ^ 53 ≤ 2 ^ r.exp := Nat.pow_le_pow_right (by decide) hexp
  by_cases hsmall : r.num * k < 2 ^ 53
  · rw [roundNat53_of_lt _ hsmall]
    calc r.num * k ≤ 2 ^ r.exp * k := Nat.mul_le_mul_right k (by omega)
      _ = k * 2 ^ r.exp := Nat.mul_comm _ _
  · obtain ⟨hlt, hge⟩ := excessBits_self (r.num * k)
    generalize hshift : excessBits (r.num * k) (r.num * k) = s at *
    -- the product lies below 2 ^ 106, so at most 53 digits are dropped
    have hprod : r.num * k < 2 ^ 53 * 2 ^ 53 := Nat.mul_lt_mul'' hnum hk
    have hs : s ≤ r.exp := by
      rcases hge with hzero | hge
      · omega
      · have hlt2 : 2 ^ (52 + s) < 2 ^ 106 := by
          have : (2 : Nat) ^ 53 * 2 ^ 53 = 2 ^ 106 := by norm_num
          omega
        have := (Nat.pow_lt_pow_iff_right (by decide : 1 < 2)).mp hlt2
        omega
    have hsplit : 2 ^ r.exp = 2 ^ s * 2 ^ (r.exp - s) := by
      rw [← Nat.pow_add, Nat.add_sub_cancel' hs]
    have hbelow : r.num * k < 2 ^ s * (k * 2 ^ (r.exp - s)) := by
      have hk0 : 0 < k := by
        rcases Nat.eq_zero_or_pos k with h0 | h0
        · rw [h0, Nat.mul_zero] at hsmall
          exact absurd (Nat.two_pow_pos 53) hsmall
        · exact h0
      calc r.num * k < 2 ^ r.exp * k := Nat.mul_lt_mul_of_pos_right (by omega) hk0
        _ = 2 ^ s * (k * 2 ^ (r.exp - s)) := by rw [hsplit]; ring
    have hquot : r.num * k / 2 ^ s < k * 2 ^ (r.exp - s) := Nat.div_lt_of_lt_mul hbelow
    have hup : (r.num * k / 2 ^ s + 1) * 2 ^ s ≤ k * 2 ^ r.exp := by
      calc (r.num * k / 2 ^ s + 1) * 2 ^ s ≤ (k * 2 ^ (r.exp - s)) * 2 ^ s :=
            Nat.mul_le_mul_right _ hquot
        _ = k * 2 ^ r.exp := by rw [hsplit]; ring
    rcases roundNat53_cases (r.num * k) with hcase | hcase
    · rw [hcase, hshift]
      exact Nat.le_trans (Nat.mul_le_mul_right _ (Nat.le_succ _)) hup
    · rw [hcase, hshift]
      exact hup

/-- The rounded number has a significand of at most 53 binary digits (or is `2 ^ 53` times
the unit): it is a double whenever its exponent is in range. -/
theorem roundNat53_significand (n : Nat) :
    ∃ q, q ≤ 2 ^ 53 ∧ roundNat53 n = q * 2 ^ excessBits n n := by
  obtain ⟨hlt, _⟩ := excessBits_self n
  have hquot : n / 2 ^ excessBits n n < 2 ^ 53 := by
    apply Nat.div_lt_of_lt_mul
    rw [← Nat.pow_add, Nat.add_comm]
    exact hlt
  rcases roundNat53_cases n with hcase | hcase
  · exact ⟨_, Nat.le_of_lt hquot, hcase⟩
  · exact ⟨_, hquot, hcase⟩

/-- Worked roundings: `0.9 * 290` is exactly 261; `0.7 * 350` is one unit in the last place
below 245; `0.6666666666666666 * 3` is a tie and rounds up to the even significand, to
exactly 2, although the exact product is below 2. -/
theorem roundNat53_examples :
    roundNat53 (8106479329266893 * 290) = 261 * 2 ^ 53 ∧
      roundNat53 (6305039478318694 * 350) = 245 * 2 ^ 53 - 2 ^ 8 ∧
      6004799503160661 * 3 < 2 * 2 ^ 53 ∧
      roundNat53 (6004799503160661 * 3) = 2 * 2 ^ 53 := by
  decide

end ClickTheSquare

/-! ## Click the square: where the relocated square lands -/

namespace ClickTheSquare

/-- The offset drawn by `moveSquare` lies within the extent for the size it was computed
with: at least 0 and, with that size added, at most the extent. -/
theorem randomOffset_within (r : Draw) (extent squareSize : Nat) (h : squareSize ≤ extent)
    (hext : extent < 2 ^ 53) :
    spanWithin (randomOffset r extent squareSize) squareSize extent := by
  obtain ⟨d, hd⟩ : ∃ d, extent = squareSize + d := ⟨extent - squareSize, by omega⟩
  have hdiff : (extent : Int) - (squareSize : Int) = (d : Int) := by
    rw [hd]
    push_cast
    ring
  have hround := roundNat53_mul_le r d (by omega)
  have hroundInt : ((roundNat53 (r.num * d) : Nat) : Int) ≤ (d : Int) * ((2 ^ r.exp : Nat) : Int) := by
    exact_mod_cast hround
  have hr0 : (0 : Int) ≤ ((roundNat53 (r.num * d) : Nat) : Int) := Int.ofNat_nonneg _
  have hden0 : (0 : Int) ≤ ((2 ^ r.exp : Nat) : Int) := Int.ofNat_nonneg _
  have hextInt : (extent : Int) = (squareSize : Int) + (d : Int) := by
    rw [hd]
    push_cast
    rfl
  unfold spanWithin randomOffset
  simp only [hdiff, Int.natAbs_ofNat]
  cases d with
  | zero =>
    simp only [Int.ofNat_zero, Int.sign_zero, Int.zero_mul] at *
    rw [hextInt]
    constructor
    · exact Int.le_refl 0
    · simp
  | succ d1 =>
    have hsign : Int.sign ((d1 + 1 : Nat) : Int) = 1 := Int.sign_of_add_one d1
    rw [hsign, Int.one_mul, hextInt]
    constructor
    · exact hr0
    · have hexpand : ((squareSize : Int) + ((d1 + 1 : Nat) : Int)) * ((2 ^ r.exp : Nat) : Int)
          = (squareSize : Int) * ((2 ^ r.exp : Nat) : Int)
            + ((d1 + 1 : Nat) : Int) * ((2 ^ r.exp : Nat) : Int) := by ring
      rw [hexpand]
      omega

/-- A span that fits with one size fits with every smaller size. -/
theorem spanWithin_of_le (offset : Frac) (size smaller extent : Nat) (hle : smaller ≤ size)
    (h : spanWithin offset size extent) : spanWithin offset smaller extent := by
  refine ⟨h.1, ?_⟩
  have hden : (0 : Int) ≤ (offset.den : Int) := Int.ofNat_nonneg _
  have hsize : (smaller : Int) ≤ (size : Int) := by exact_mod_cast hle
  have hmul : (smaller : Int) * (offset.den : Int) ≤ (size : Int) * (offset.den : Int) :=
    Int.mul_le_mul_of_nonneg_right hsize hden
  have h2 := h.2
  omega

/-- After `moveSquare` in a game area at least as large as the size the callback read, the
new position keeps a square of that size inside the area; the square as displayed is inside
whenever the variant drawn is not larger than that size. -/
theorem moveSquare_within_for_read_size (squareSize : Nat) (area : GameArea)
    (randTop randLeft randType : Draw) (g : Game)
    (hh : squareSize ≤ area.offsetHeight) (hw : squareSize ≤ area.offsetWidth)
    (hhmax : area.offsetHeight < 2 ^ 53) (hwmax : area.offsetWidth < 2 ^ 53) :
    let g2 := moveSquare squareSize
      { gameArea := some area, randTop := randTop, randLeft := randLeft, randType := randType } g
    spanWithin (g2.squarePosition.top.toFrac area.offsetHeight) squareSize area.offsetHeight ∧
      spanWithin (g2.squarePosition.left.toFrac area.offsetWidth) squareSize area.offsetWidth ∧
      (g2.currentSquareType.size ≤ squareSize → displayedWithin area g2) := by
  intro g2
  have htop := randomOffset_within randTop area.offsetHeight squareSize hh hhmax
  have hleft := randomOffset_within randLeft area.offsetWidth squareSize hw hwmax
  refine ⟨htop, hleft, fun hle => ⟨?_, ?_⟩⟩
  · exact spanWithin_of_le _ _ _ _ hle htop
  · exact spanWithin_of_le _ _ _ _ hle hleft

end ClickTheSquare

/-- C11 (the code at the failing input): in a 400 x 320 game area, with the small square
(size 30) on screen, a click whose `moveSquare` draws 0.9 for the top, 0.9 for the left and
0.9 for the variant puts the square at top 261 px, left 333 px and makes it the large
variant (size 70): as displayed it reaches 331 px down and 403 px across, outside the area.
The offsets were computed with the size of the variant being replaced. -/
theorem relocated_square_leaves_area :
    (ClickTheSquare.smallSquareShown.gameStarted = true ∧
      ClickTheSquare.smallSquareShown.currentSquareType.size = 30 ∧
      ClickTheSquare.Reachable ClickTheSquare.clickedNearCorner) ∧
    (70 ≤ 400 ∧ 70 ≤ 320) ∧
    ClickTheSquare.clickedNearCorner.squarePosition
      = ⟨.px ⟨261 * 2 ^ 53, 2 ^ 53⟩, .px ⟨333 * 2 ^ 53, 2 ^ 53⟩⟩ ∧
    ClickTheSquare.clickedNearCorner.currentSquareType.size = 70 ∧
    ¬ ClickTheSquare.displayedWithin ⟨400, 320⟩ ClickTheSquare.clickedNearCorner ∧
    ¬ ClickTheSquare.spanWithin ⟨261 * 2 ^ 53, 2 ^ 53⟩ 70 320 ∧
    ¬ ClickTheSquare.spanWithin ⟨333 * 2 ^ 53, 2 ^ 53⟩ 70 400 ∧
    ClickTheSquare.spanWithin ⟨261 * 2 ^ 53, 2 ^ 53⟩ 30 320 ∧
    ClickTheSquare.spanWithin ⟨333 * 2 ^ 53, 2 ^ 53⟩ 30 400 := by
  refine ⟨⟨by decide, by decide, ⟨none, ClickTheSquare.startAndCountDown 1 ++
    [.timerFire 3 (ClickTheSquare.sampleMove 3 3 0),
     .squareClick (ClickTheSquare.sampleMove 9 9 9)], by decide⟩⟩, ?_⟩
  decide

/-! ## Click the square: the variant is one of the listed three -/

namespace ClickTheSquare

/-- The index drawn by `moveSquare` is a valid index of `SQUARE_TYPES`. -/
theorem randomIndex_lt (r : Draw) : randomIndex r < SQUARE_TYPES.length :=
  (randomIndexInRange r).isLt

/-- The double product `fl(r * 3)` stays below 3. -/
theorem roundedProduct_lt (r : Draw) : roundNat53 (r.num * 3) < 3 * 2 ^ r.exp := by
  have hlt := randomIndex_lt r
  have hlen : SQUARE_TYPES.length = 3 := rfl
  unfold randomIndex at hlt
  rw [hlen] at hlt
  have hpos : 0 < 2 ^ r.exp := Nat.two_pow_pos r.exp
  exact (Nat.div_lt_iff_lt_mul hpos).mp hlt

/-- The index is the floor of the double product `fl(r * 3)`. -/
theorem randomIndex_eq_floor (r : Draw) :
    ((randomIndex r : Nat) : Int)
      = ⌊((roundNat53 (r.num * 3) : Nat) : ℚ) / ((2 ^ r.exp : Nat) : ℚ)⌋ := by
  rw [← Int.natCast_floor_eq_floor (by positivity), Nat.floor_div_eq_div]
  rfl

/-- The variant drawn by `moveSquare` is an entry of `SQUARE_TYPES`. -/
theorem randomSquareType_mem (r : Draw) : randomSquareType r ∈ SQUARE_TYPES := by
  unfold randomSquareType
  exact List.get_mem _ _ _

/-- The lookup at the drawn index finds the drawn variant. -/
theorem randomSquareType_lookup (r : Draw) :
    SQUARE_TYPES[randomIndex r]? = some (randomSquareType r) := by
  unfold randomSquareType
  rw [List.getElem?_eq_getElem (randomIndex_lt r)]
  rfl

/-- After `moveSquare` the variant is the old one or the drawn one. -/
theorem moveSquare_variant (squareSize : Nat) (m : MoveInput) (g : Game) :
    (moveSquare squareSize m g).currentSquareType = g.currentSquareType ∨
      (moveSquare squareSize m g).currentSquareType = randomSquareType m.randType := by
  unfold moveSquare
  cases m.gameArea with
  | none => exact Or.inl rfl
  | some area => exact Or.inr rfl

/-- Every event leaves the variant what it was or sets it to a drawn one. -/
theorem step_variant (g : Game) (e : Event) :
    (step g e).currentSquareType = g.currentSquareType ∨
      ∃ r : Draw, (step g e).currentSquareType = randomSquareType r := by
  have hmove : ∀ (squareSize : Nat) (m : MoveInput) (g1 : Game),
      g1.currentSquareType = g.currentSquareType →
      ((moveSquare squareSize m g1).currentSquareType = g.currentSquareType ∨
        ∃ r : Draw, (moveSquare squareSize m g1).currentSquareType = randomSquareType r) := by
    intro squareSize m g1 h1
    rcases moveSquare_variant squareSize m g1 with h | h
    · exact Or.inl (h.trans h1)
    · exact Or.inr ⟨_, h⟩
  cases e with
  | startGame =>
    left
    simp [step, startGame, setInterval, clearInterval_frame]
  | squareClick m =>
    simp only [step, handleSquareClick]
    split_ifs
    · exact hmove _ m _ rfl
    · exact Or.inl rfl
  | timerFire id m =>
    simp only [step, timerFire]
    cases findTimer id g with
    | none => exact Or.inl rfl
    | some t =>
      dsimp only
      cases t.kind with
      | countdown =>
        dsimp only [countdownTick]
        split_ifs
        · simp only [setInterval]
          exact hmove _ m _ (by simp [clearInterval_frame])
        · exact Or.inl rfl
      | gameTimer =>
        left
        dsimp only [gameTimerTick]
        split_ifs <;> simp [clearInterval_frame]
      | squareMove =>
        dsimp only [squareMoveTick]
        split_ifs
        · simp only [setInterval, clearInterval_frame]
          exact hmove _ m _ rfl
        · exact hmove _ m _ rfl
      | moveOnly => exact hmove _ m _ rfl
  | feedbackTimeout =>
    left
    simp only [step, feedbackTimeout]
    split_ifs <;> rfl

/-- In every reachable state the variant is an entry of `SQUARE_TYPES`. -/
theorem variant_of_reachable (g : Game) (h : Reachable g) :
    g.currentSquareType ∈ SQUARE_TYPES := by
  obtain ⟨saved, events, hg⟩ := h
  rw [hg]
  have hrun : ∀ (evs : List Event) (g1 : Game), g1.currentSquareType ∈ SQUARE_TYPES →
      (run g1 evs).currentSquareType ∈ SQUARE_TYPES := by
    intro evs
    induction evs with
    | nil => intro g1 h1; exact h1
    | cons e rest ih =>
      intro g1 h1
      apply ih (step g1 e)
      rcases step_variant g1 e with h | ⟨r, h⟩
      · rw [h]; exact h1
      · rw [h]; exact randomSquareType_mem r
  exact hrun events _ (show mediumSquare ∈ SQUARE_TYPES by decide)

end ClickTheSquare

/-- C15: for every double `r` that is at least 0 and below 1, the product `r * 3` as
JavaScript computes it (rounded to a double) is below 3, so the index `floor(r * 3)` that
`moveSquare` computes is 0, 1 or 2 and the lookup `SQUARE_TYPES[index]` finds an entry; the
component starts with the medium variant, and in every reachable state the current variant
is one of the three entries of `SQUARE_TYPES`, with size 30, 50 or 70 and points 1, 2 or 3. -/
theorem variant_always_listed (r : ClickTheSquare.Draw) (g : ClickTheSquare.Game)
    (hreach : ClickTheSquare.Reachable g) :
    (ClickTheSquare.roundNat53 (r.num * 3) < 3 * 2 ^ r.exp ∧
      ((ClickTheSquare.randomIndex r : Nat) : Int)
        = ⌊((ClickTheSquare.roundNat53 (r.num * 3) : Nat) : ℚ) / ((2 ^ r.exp : Nat) : ℚ)⌋) ∧
      (ClickTheSquare.randomIndex r = 0 ∨ ClickTheSquare.randomIndex r = 1 ∨
        ClickTheSquare.randomIndex r = 2) ∧
      (∃ v ∈ ClickTheSquare.SQUARE_TYPES,
        ClickTheSquare.SQUARE_TYPES[ClickTheSquare.randomIndex r]? = some v ∧
          ClickTheSquare.randomSquareType r = v) ∧
      (∀ saved, (ClickTheSquare.Game.init saved).currentSquareType.id = "medium") ∧
      g.currentSquareType ∈ ClickTheSquare.SQUARE_TYPES ∧
      ClickTheSquare.SQUARE_TYPES.length = 3 ∧
      (g.currentSquareType.size = 30 ∨ g.currentSquareType.size = 50 ∨
        g.currentSquareType.size = 70) ∧
      (g.currentSquareType.points = 1 ∨ g.currentSquareType.points = 2 ∨
        g.currentSquareType.points = 3) := by
  have hlt := ClickTheSquare.randomIndex_lt r
  have hlen : ClickTheSquare.SQUARE_TYPES.length = 3 := rfl
  have hmem := ClickTheSquare.variant_of_reachable g hreach
  have hall : ∀ v ∈ ClickTheSquare.SQUARE_TYPES,
      (v.size = 30 ∨ v.size = 50 ∨ v.size = 70) ∧
        (v.points = 1 ∨ v.points = 2 ∨ v.points = 3) := by
    decide
  refine ⟨⟨ClickTheSquare.roundedProduct_lt r, ClickTheSquare.randomIndex_eq_floor r⟩, ?_,
    ⟨_, ClickTheSquare.randomSquareType_mem r, ClickTheSquare.randomSquareType_lookup r, rfl⟩,
    fun _ => rfl, hmem, hlen, (hall _ hmem).1, (hall _ hmem).2⟩
  rw [hlen] at hlt
  omega

theorem variant_always_listed_witness :
    (ClickTheSquare.randomIndex (ClickTheSquare.tenth 9) = 2 ∧
      ClickTheSquare.randomIndex ⟨6004799503160661, 53, by decide, by decide, by decide⟩ = 2 ∧
      ClickTheSquare.randomIndex ⟨2 ^ 53 - 1, 53, by decide, by decide, by decide⟩ = 2) ∧
      ClickTheSquare.firstRoundEnded.currentSquareType ∈ ClickTheSquare.SQUARE_TYPES :=
  have h := variant_always_listed (ClickTheSquare.tenth 9) ClickTheSquare.firstRoundEnded
    ⟨none, ClickTheSquare.startAndCountDown 1 ++
      (.squareClick (ClickTheSquare.sampleMove 1 2 0) :: .feedbackTimeout ::
        ClickTheSquare.firstRoundTicks), by decide⟩
  ⟨by decide, h.2.2.2.2.1⟩

/-! ## Click the square: restart and countdown -/

namespace ClickTheSquare

/-- What `startGame` sets and what it leaves, in any state. -/
theorem startGame_frame (g : Game) :
    (startGame g).score = 0 ∧ (startGame g).timeLeft = 15 ∧ (startGame g).countdown = 3 ∧
      (startGame g).gameStarted = false ∧ (startGame g).currentMoveSpeedRef = 800 ∧
      (startGame g).highScore = g.highScore ∧
      (startGame g).storedHighScore = g.storedHighScore ∧
      (startGame g).countdownTimerRef = some g.nextTimerId ∧
      (startGame g).nextTimerId = g.nextTimerId + 1 ∧
      (startGame g).squarePosition = g.squarePosition ∧
      (startGame g).currentSquareType = g.currentSquareType := by
  simp [startGame, setInterval, clearInterval_frame]

/-- In a well-shaped state every registered interval has an id below the next one. -/
theorem inv_ids_lt (g : Game) (h : Inv g) : ∀ t ∈ g.timers, t.id < g.nextTimerId := by
  intro t ht
  rcases h with ⟨hnil, _⟩ | ⟨t1, hts, _, _, hlt, _⟩ | ⟨tg, tm, hts, _, _, _, hlt, hnext, _⟩
  · rw [hnil] at ht; cases ht
  · rw [hts, List.mem_singleton] at ht
    rw [ht]; exact hlt
  · rw [hts] at ht
    simp only [List.mem_cons, List.mem_singleton, List.not_mem_nil, or_false] at ht
    rcases ht with ht | ht
    · rw [ht]; exact Nat.lt_trans hlt hnext
    · rw [ht]; exact hnext

/-- From a well-shaped state `startGame` leaves the component counting down. -/
theorem startGame_countingDown (g : Game) (h : Inv g) : CountingDown (startGame g) := by
  have hf := startGame_frame g
  refine ⟨_, startGame_timers g h, rfl, hf.2.2.2.2.2.2.2.1, ?_, hf.2.2.2.1, hf.2.2.2.2.1⟩
  rw [hf.2.2.2.2.2.2.2.2.1]
  exact Nat.lt_succ_self _

/-- A countdown tick above 1 only decrements the countdown, and leaves it at least 1. -/
theorem countdownTick_decrement (env : Closure) (m : MoveInput) (g : Game)
    (h : 1 < g.countdown) :
    countdownTick env m g = { g with countdown := g.countdown - 1 } ∧
      1 ≤ g.countdown - 1 ∧ (g.countdown - 1) + 1 = g.countdown := by
  have hnot : ¬ g.countdown ≤ 1 := by omega
  refine ⟨?_, by omega, by omega⟩
  simp only [countdownTick, hnot, if_false]

/-- The countdown tick at 1 (or below) ends the countdown and starts the round. -/
theorem countdownTick_finish (env : Closure) (m : MoveInput) (g : Game)
    (h : g.countdown ≤ 1) :
    (countdownTick env m g).countdown = 0 ∧ (countdownTick env m g).gameStarted = true ∧
      (countdownTick env m g).timeLeft = g.timeLeft ∧
      (countdownTick env m g).timers
        = (clearInterval g.countdownTimerRef g).timers ++
          [{ id := g.nextTimerId, kind := .gameTimer, delay := 1000, env := env },
           { id := g.nextTimerId + 1, kind := .squareMove, delay := g.currentMoveSpeedRef,
             env := env }] ∧
      (countdownTick env m g).gameTimerRef = some g.nextTimerId ∧
      (countdownTick env m g).squareMoveIntervalRef = some (g.nextTimerId + 1) ∧
      (countdownTick env m g).nextTimerId = g.nextTimerId + 2 := by
  simp only [countdownTick, h, if_true]
  simp [setInterval, moveSquare_frame, clearInterval_frame]

/-- While counting down, firing the countdown interval runs the countdown tick with the
bindings it carries. -/
theorem timerFire_countdown (g : Game) (t : Timer) (m : MoveInput) (hts : g.timers = [t])
    (hk : t.kind = .countdown) : timerFire t.id m g = countdownTick t.env m g := by
  have hfind : findTimer t.id g = some t := by simp [findTimer, hts]
  simp only [timerFire, hfind, hk]

/-- While counting down, every event other than a restart and a tick of the countdown
interval leaves countdown, started flag, time left and intervals as they are. -/
theorem countingDown_other_event (g : Game) (t : Timer) (e : Event) (hts : g.timers = [t])
    (hstarted : g.gameStarted = false) (hne : e ≠ Event.startGame)
    (hnotick : ∀ m, e ≠ Event.timerFire t.id m) :
    (step g e).countdown = g.countdown ∧ (step g e).gameStarted = g.gameStarted ∧
      (step g e).timeLeft = g.timeLeft ∧ (step g e).timers = g.timers := by
  cases e with
  | startGame => exact absurd rfl hne
  | squareClick m =>
    simp [step, handleSquareClick_inactive m g hstarted]
  | timerFire id m =>
    have hid : t.id ≠ id := by
      intro h
      exact hnotick m (by rw [h])
    have hfind : findTimer id g = none := by simp [findTimer, hts, hid]
    simp [step, timerFire, hfind]
  | feedbackTimeout =>
    simp only [step, feedbackTimeout]
    split_ifs <;> exact ⟨rfl, rfl, rfl, rfl⟩

end ClickTheSquare

/-- C14: `startGame` sets score 0, time left 15, countdown 3, `gameStarted` false and move
speed 800 and keeps the high score, in every state; and from every state the component can
reach (an ended round in particular) it leaves exactly one registered interval, the new
countdown interval, whose id none of the earlier intervals had. -/
theorem restart_resets_round (g : ClickTheSquare.Game) (hreach : ClickTheSquare.Reachable g) :
    ((ClickTheSquare.startGame g).score = 0 ∧ (ClickTheSquare.startGame g).timeLeft = 15 ∧
      (ClickTheSquare.startGame g).countdown = 3 ∧
      (ClickTheSquare.startGame g).gameStarted = false ∧
      (ClickTheSquare.startGame g).currentMoveSpeedRef = 800 ∧
      (ClickTheSquare.startGame g).highScore = g.highScore ∧
      (ClickTheSquare.startGame g).storedHighScore = g.storedHighScore) ∧
    ((ClickTheSquare.startGame g).timers
        = [{ id := g.nextTimerId, kind := .countdown, delay := 1000,
             env := { score := g.score, timeLeft := g.timeLeft,
                      squareSize := g.currentSquareType.size } }] ∧
      (ClickTheSquare.startGame g).countdownTimerRef = some g.nextTimerId ∧
      (∀ t ∈ g.timers, t.id ≠ g.nextTimerId) ∧
      (∀ t ∈ g.timers, t ∉ (ClickTheSquare.startGame g).timers)) ∧
    (∀ g2 : ClickTheSquare.Game,
      (ClickTheSquare.startGame g2).score = 0 ∧ (ClickTheSquare.startGame g2).timeLeft = 15 ∧
        (ClickTheSquare.startGame g2).countdown = 3 ∧
        (ClickTheSquare.startGame g2).gameStarted = false ∧
        (ClickTheSquare.startGame g2).currentMoveSpeedRef = 800 ∧
        (ClickTheSquare.startGame g2).highScore = g2.highScore) := by
  have hinv := ClickTheSquare.inv_of_reachable g hreach
  have hf := ClickTheSquare.startGame_frame g
  have hts := ClickTheSquare.startGame_timers g hinv
  have hids := ClickTheSquare.inv_ids_lt g hinv
  refine ⟨⟨hf.1, hf.2.1, hf.2.2.1, hf.2.2.2.1, hf.2.2.2.2.1, hf.2.2.2.2.2.1,
    hf.2.2.2.2.2.2.1⟩, ⟨hts, hf.2.2.2.2.2.2.2.1, ?_, ?_⟩, ?_⟩
  · intro t ht
    exact Nat.ne_of_lt (hids t ht)
  · intro t ht hmem
    rw [hts, List.mem_singleton] at hmem
    have hlt := hids t ht
    rw [hmem] at hlt
    exact Nat.lt_irrefl _ hlt
  · intro g2
    have hf2 := ClickTheSquare.startGame_frame g2
    exact ⟨hf2.1, hf2.2.1, hf2.2.2.1, hf2.2.2.2.1, hf2.2.2.2.2.1, hf2.2.2.2.2.2.1⟩

theorem restart_resets_round_witness :
    (ClickTheSquare.firstRoundEnded.score = 2 ∧ ClickTheSquare.firstRoundEnded.timeLeft = 0 ∧
      ClickTheSquare.firstRoundEnded.currentMoveSpeedRef = 750) ∧
    ((ClickTheSquare.startGame ClickTheSquare.firstRoundEnded).score = 0 ∧
      (ClickTheSquare.startGame ClickTheSquare.firstRoundEnded).timeLeft = 15 ∧
      (ClickTheSquare.startGame ClickTheSquare.firstRoundEnded).countdown = 3 ∧
      (ClickTheSquare.startGame ClickTheSquare.firstRoundEnded).gameStarted = false ∧
      (ClickTheSquare.startGame ClickTheSquare.firstRoundEnded).currentMoveSpeedRef = 800 ∧
      (ClickTheSquare.startGame ClickTheSquare.firstRoundEnded).highScore
        = ClickTheSquare.firstRoundEnded.highScore ∧
      (ClickTheSquare.startGame ClickTheSquare.firstRoundEnded).storedHighScore
        = ClickTheSquare.firstRoundEnded.storedHighScore) :=
  have h := restart_resets_round ClickTheSquare.firstRoundEnded
    ⟨none, ClickTheSquare.startAndCountDown 1 ++
      (.squareClick (ClickTheSquare.sampleMove 1 2 0) :: .feedbackTimeout ::
        ClickTheSquare.firstRoundTicks), by decide⟩
  ⟨by decide, h.1⟩

/-- C13: from any reachable state, `startGame` leaves countdown 3 with `gameStarted` false
and the countdown interval alone; its first tick gives countdown 2 and its second countdown 1,
changing nothing else; its third tick gives countdown 0, sets `gameStarted` true,
unregisters the countdown interval and registers the time-left interval (1000 ms) and the
square-move interval (800 ms). In general a tick above 1 decrements by exactly one and stays
at least 1, a tick at 1 or below gives 0, and no other event but a restart touches the
countdown or the started flag while counting down. -/
theorem countdown_three_ticks (g0 : ClickTheSquare.Game) (hreach : ClickTheSquare.Reachable g0)
    (m1 m2 m3 : ClickTheSquare.MoveInput) :
    let n := g0.nextTimerId
    let env : ClickTheSquare.Closure :=
      { score := g0.score, timeLeft := g0.timeLeft, squareSize := g0.currentSquareType.size }
    let s0 := ClickTheSquare.startGame g0
    let s1 := ClickTheSquare.timerFire n m1 s0
    let s2 := ClickTheSquare.timerFire n m2 s1
    let s3 := ClickTheSquare.timerFire n m3 s2
    (s0.countdown = 3 ∧ s0.gameStarted = false ∧
      s0.timers = [{ id := n, kind := .countdown, delay := 1000, env := env }]) ∧
    s1 = { s0 with countdown := 2 } ∧
    s2 = { s0 with countdown := 1 } ∧
    (s3.countdown = 0 ∧ s3.gameStarted = true ∧
      s3.timers = [{ id := n + 1, kind := .gameTimer, delay := 1000, env := env },
                   { id := n + 2, kind := .squareMove, delay := 800, env := env }] ∧
      s3.gameTimerRef = some (n + 1) ∧ s3.squareMoveIntervalRef = some (n + 2) ∧
      ClickTheSquare.findTimer n s3 = none) ∧
    (∀ (env2 : ClickTheSquare.Closure) (m : ClickTheSquare.MoveInput) (g : ClickTheSquare.Game),
      1 < g.countdown →
        ClickTheSquare.countdownTick env2 m g = { g with countdown := g.countdown - 1 } ∧
          1 ≤ g.countdown - 1 ∧ (g.countdown - 1) + 1 = g.countdown) ∧
    (∀ (env2 : ClickTheSquare.Closure) (m : ClickTheSquare.MoveInput) (g : ClickTheSquare.Game),
      g.countdown ≤ 1 →
        (ClickTheSquare.countdownTick env2 m g).countdown = 0 ∧
          (ClickTheSquare.countdownTick env2 m g).gameStarted = true) ∧
    (∀ (s : ClickTheSquare.Game) (e : ClickTheSquare.Event), s = s0 ∨ s = s1 ∨ s = s2 →
      e ≠ ClickTheSquare.Event.startGame → (∀ m, e ≠ ClickTheSquare.Event.timerFire n m) →
        (ClickTheSquare.step s e).countdown = s.countdown ∧
          (ClickTheSquare.step s e).gameStarted = false ∧
          (ClickTheSquare.step s e).timers = s.timers) := by
  intro n env s0 s1 s2 s3
  have hinv := ClickTheSquare.inv_of_reachable g0 hreach
  have hf := ClickTheSquare.startGame_frame g0
  have hts0 : s0.timers = [{ id := n, kind := .countdown, delay := 1000, env := env }] :=
    ClickTheSquare.startGame_timers g0 hinv
  have hc0 : s0.countdown = 3 := hf.2.2.1
  have hs0 : s0.gameStarted = false := hf.2.2.2.1
  -- first tick
  have h1 : s1 = { s0 with countdown := 2 } := by
    have hfire := ClickTheSquare.timerFire_countdown s0 _ m1 hts0 rfl
    have hdec := (ClickTheSquare.countdownTick_decrement env m1 s0 (by rw [hc0]; decide)).1
    show ClickTheSquare.timerFire n m1 s0 = _
    rw [hfire, hdec, hc0]
  -- second tick
  have hts1 : s1.timers = [{ id := n, kind := .countdown, delay := 1000, env := env }] := by
    rw [h1]; exact hts0
  have hc1 : s1.countdown = 2 := by rw [h1]
  have h2 : s2 = { s0 with countdown := 1 } := by
    have hfire := ClickTheSquare.timerFire_countdown s1 _ m2 hts1 rfl
    have hdec := (ClickTheSquare.countdownTick_decrement env m2 s1 (by rw [hc1]; decide)).1
    show ClickTheSquare.timerFire n m2 s1 = _
    rw [hfire, hdec, hc1, h1]
  -- third tick
  have hts2 : s2.timers = [{ id := n, kind := .countdown, delay := 1000, env := env }] := by
    rw [h2]; exact hts0
  have hc2 : s2.countdown = 1 := by rw [h2]
  have href2 : s2.countdownTimerRef = some n := by rw [h2]; exact hf.2.2.2.2.2.2.2.1
  have hnext2 : s2.nextTimerId = n + 1 := by rw [h2]; exact hf.2.2.2.2.2.2.2.2.1
  have hspeed2 : s2.currentMoveSpeedRef = 800 := by rw [h2]; exact hf.2.2.2.2.1
  have h3 : s3 = ClickTheSquare.countdownTick env m3 s2 :=
    ClickTheSquare.timerFire_countdown s2 _ m3 hts2 rfl
  have hfin := ClickTheSquare.countdownTick_finish env m3 s2 (by rw [hc2])
  have hclear : (ClickTheSquare.clearInterval s2.countdownTimerRef s2).timers = [] := by
    rw [ClickTheSquare.clearInterval_timers, hts2, href2]
    simp
  have hts3 : s3.timers = [{ id := n + 1, kind := .gameTimer, delay := 1000, env := env },
      { id := n + 2, kind := .squareMove, delay := 800, env := env }] := by
    rw [h3, hfin.2.2.2.1, hclear, hnext2, hspeed2]
    rfl
  refine ⟨⟨hc0, hs0, hts0⟩, h1, h2, ⟨?_, ?_, hts3, ?_, ?_, ?_⟩, ?_, ?_, ?_⟩
  · rw [h3]; exact hfin.1
  · rw [h3]; exact hfin.2.1
  · rw [h3, hfin.2.2.2.2.1, hnext2]
  · rw [h3, hfin.2.2.2.2.2.1, hnext2]
  · simp [ClickTheSquare.findTimer, hts3]
  · intro env2 m g hg
    exact ClickTheSquare.countdownTick_decrement env2 m g hg
  · intro env2 m g hg
    have h := ClickTheSquare.countdownTick_finish env2 m g hg
    exact ⟨h.1, h.2.1⟩
  · intro s e hs hne hnotick
    have hgen : s.timers = [{ id := n, kind := .countdown, delay := 1000, env := env }] ∧
        s.gameStarted = false := by
      rcases hs with hs | hs | hs
      · rw [hs]; exact ⟨hts0, hs0⟩
      · rw [hs]; exact ⟨hts1, by rw [h1]; exact hs0⟩
      · rw [hs]; exact ⟨hts2, by rw [h2]; exact hs0⟩
    have h := ClickTheSquare.countingDown_other_event s _ e hgen.1 hgen.2 hne hnotick
    exact ⟨h.1, h.2.1.trans hgen.2, h.2.2.2⟩

theorem countdown_three_ticks_witness :
    (ClickTheSquare.startGame ClickTheSquare.firstRoundEnded).countdown = 3 ∧
      (ClickTheSquare.run ClickTheSquare.firstRoundEnded
        (ClickTheSquare.startAndCountDown 5)).gameStarted = true ∧
      (ClickTheSquare.timerFire 5 (ClickTheSquare.sampleMove 5 5 5)
        (ClickTheSquare.timerFire 5 (ClickTheSquare.sampleMove 0 0 0)
          (ClickTheSquare.timerFire 5 (ClickTheSquare.sampleMove 0 0 0)
            (ClickTheSquare.startGame ClickTheSquare.firstRoundEnded)))).countdown = 0 :=
  have h := countdown_three_ticks ClickTheSquare.firstRoundEnded
    ⟨none, ClickTheSquare.startAndCountDown 1 ++
      (.squareClick (ClickTheSquare.sampleMove 1 2 0) :: .feedbackTimeout ::
        ClickTheSquare.firstRoundTicks), by decide⟩
    (ClickTheSquare.sampleMove 0 0 0) (ClickTheSquare.sampleMove 0 0 0)
    (ClickTheSquare.sampleMove 5 5 5)
  ⟨h.1.1, by decide, h.2.2.2.1.1⟩

/-! ## Click the square: the fifteen seconds of a round -/

namespace ClickTheSquare

/-- A well-shaped state whose square is shown is an active round. -/
theorem active_of_inv_started (g : Game) (h : Inv g) (hs : g.gameStarted = true) :
    Active g := by
  rcases h with hstop | hcount | hact
  · rw [hstop.2.1] at hs; cases hs
  · obtain ⟨t, _, _, _, _, hfalse, _⟩ := hcount
    rw [hfalse] at hs; cases hs
  · exact hact

/-- Counting down depends only on the intervals, the refs, the started flag and the speed. -/
theorem countingDown_congr (g g2 : Game) (ht : g2.timers = g.timers)
    (hs : g2.gameStarted = g.gameStarted) (hv : g2.currentMoveSpeedRef = g.currentMoveSpeedRef)
    (hc : g2.countdownTimerRef = g.countdownTimerRef) (hn : g2.nextTimerId = g.nextTimerId)
    (h : CountingDown g) : CountingDown g2 := by
  unfold CountingDown at *
  rw [ht, hs, hv, hc, hn]
  exact h

/-- The ticks counted in a list are those of its first event plus those of the rest. -/
theorem timeLeftTickCount_cons (g : Game) (e : Event) (rest : List Event) :
    timeLeftTickCount g (e :: rest)
      = timeLeftTickCount g [e] + timeLeftTickCount (step g e) rest := by
  cases e <;> simp [timeLeftTickCount]

/-- While counting down, an event other than a restart is no time-left tick, keeps the time
left, and leaves the component counting down or makes the round active. -/
theorem countingDown_step (g : Game) (e : Event) (h : CountingDown g)
    (hne : e ≠ Event.startGame) :
    timeLeftTickCount g [e] = 0 ∧ (step g e).timeLeft = g.timeLeft ∧
      (CountingDown (step g e) ∨ Active (step g e)) := by
  obtain ⟨t, hts, hk, href, hlt, hs, hv⟩ := h
  have hcd : CountingDown g := ⟨t, hts, hk, href, hlt, hs, hv⟩
  cases e with
  | startGame => exact absurd rfl hne
  | squareClick m =>
    refine ⟨by simp [timeLeftTickCount], ?_, Or.inl ?_⟩
    · simp [step, handleSquareClick_inactive m g hs]
    · simp only [step, handleSquareClick_inactive m g hs]
      exact hcd
  | feedbackTimeout =>
    refine ⟨by simp [timeLeftTickCount], ?_, Or.inl ?_⟩
    · simp only [step, feedbackTimeout]
      split_ifs <;> rfl
    · simp only [step, feedbackTimeout]
      split_ifs
      · exact hcd
      · exact countingDown_congr g _ rfl rfl rfl rfl rfl hcd
  | timerFire id m =>
    by_cases hid : t.id = id
    · have hfind : findTimer id g = some t := by simp [findTimer, hts, hid]
      have hfire : timerFire id m g = countdownTick t.env m g := by
        simp only [timerFire, hfind, hk]
      refine ⟨by simp [timeLeftTickCount, hfind, hk], ?_, ?_⟩
      · simp only [step, hfire]
        by_cases hle : g.countdown ≤ 1
        · exact (countdownTick_finish t.env m g hle).2.2.1
        · rw [(countdownTick_decrement t.env m g (by omega)).1]
      · simp only [step, hfire]
        by_cases hle : g.countdown ≤ 1
        · exact Or.inr (active_of_inv_started _ (inv_countdownTick t.env m g hcd)
            (countdownTick_finish t.env m g hle).2.1)
        · rw [(countdownTick_decrement t.env m g (by omega)).1]
          exact Or.inl (countingDown_congr g _ rfl rfl rfl rfl rfl hcd)
    · have hfind : findTimer id g = none := by simp [findTimer, hts, hid]
      refine ⟨by simp [timeLeftTickCount, hfind], ?_, Or.inl ?_⟩
      · simp [step, timerFire, hfind]
      · simp only [step, timerFire, hfind]
        exact hcd

/-- The square-move tick keeps the time left and the started flag. -/
theorem squareMoveTick_frame (env : Closure) (m : MoveInput) (g : Game) :
    (squareMoveTick env m g).timeLeft = g.timeLeft ∧
      (squareMoveTick env m g).gameStarted = g.gameStarted := by
  dsimp only [squareMoveTick]
  split_ifs <;> simp [clearInterval_frame, moveSquare_frame, setInterval]

/-- The time-left tick in an active round: at 1 second left it stops the component with 0
left, with more left it takes one second off and the round stays active. -/
theorem gameTimerTick_active (env : Closure) (g : Game) (h : Active g)
    (hpos : 1 ≤ g.timeLeft) :
    (g.timeLeft = 1 ∧ Stopped (gameTimerTick env g) ∧ (gameTimerTick env g).timeLeft = 0) ∨
      (1 < g.timeLeft ∧ Active (gameTimerTick env g) ∧
        (gameTimerTick env g).timeLeft + 1 = g.timeLeft) := by
  by_cases hle : g.timeLeft ≤ 1
  · have hzero : (gameTimerTick env g).timeLeft = 0 := by
      dsimp only [gameTimerTick]
      rw [if_pos hle]
    exact Or.inl ⟨by omega, gameTimerTick_stops env g h hzero, hzero⟩
  · have heq : gameTimerTick env g = { g with timeLeft := g.timeLeft - 1 } := by
      simp only [gameTimerTick, hle, if_false]
    refine Or.inr ⟨by omega, ?_, ?_⟩
    · rw [heq]
      exact active_of_inv_started _
        (inv_congr g _ rfl rfl rfl rfl rfl rfl rfl (Or.inr (Or.inr h))) (by
          obtain ⟨_, _, _, _, _, _, _, _, hs, _⟩ := h
          exact hs)
    · rw [heq]
      show g.timeLeft - 1 + 1 = g.timeLeft
      omega

/-- In an active round with time left, an event other than a restart is either no time-left
tick and keeps the round active with the same time left, or a time-left tick that takes one
second off, stopping the component when that was the last second. -/
theorem active_step (g : Game) (e : Event) (h : Active g) (hpos : 1 ≤ g.timeLeft)
    (hne : e ≠ Event.startGame) :
    (timeLeftTickCount g [e] = 0 ∧ Active (step g e) ∧ (step g e).timeLeft = g.timeLeft) ∨
      (timeLeftTickCount g [e] = 1 ∧ 1 < g.timeLeft ∧ Active (step g e) ∧
        (step g e).timeLeft + 1 = g.timeLeft) ∨
      (timeLeftTickCount g [e] = 1 ∧ g.timeLeft = 1 ∧ Stopped (step g e) ∧
        (step g e).timeLeft = 0) := by
  have hinv : Inv g := Or.inr (Or.inr h)
  obtain ⟨tg, tm, hts, hkg, hgref, hmref, hlt, hnext, hs, hdelay, hv⟩ := h
  have hact : Active g := ⟨tg, tm, hts, hkg, hgref, hmref, hlt, hnext, hs, hdelay, hv⟩
  cases e with
  | startGame => exact absurd rfl hne
  | squareClick m =>
    have hf := handleSquareClick_active m g hs
    refine Or.inl ⟨by simp [timeLeftTickCount], ?_, hf.2.1⟩
    exact active_of_inv_started _ (inv_handleSquareClick m g hinv) (hf.2.2.2.2.1.trans hs)
  | feedbackTimeout =>
    refine Or.inl ⟨by simp [timeLeftTickCount], ?_, ?_⟩
    · apply active_of_inv_started _ (inv_feedbackTimeout g hinv)
      simp only [step, feedbackTimeout]
      split_ifs <;> exact hs
    · simp only [step, feedbackTimeout]
      split_ifs <;> rfl
  | timerFire id m =>
    by_cases hid : tg.id = id
    · have hfind : findTimer id g = some tg := by simp [findTimer, hts, hid]
      have hfire : timerFire id m g = gameTimerTick tg.env g := by
        simp only [timerFire, hfind, hkg]
      have hcount : timeLeftTickCount g [Event.timerFire id m] = 1 := by
        simp [timeLeftTickCount, hfind, hkg]
      simp only [step, hfire]
      rcases gameTimerTick_active tg.env g hact hpos with ⟨h1, h2, h3⟩ | ⟨h1, h2, h3⟩
      · exact Or.inr (Or.inr ⟨hcount, h1, h2, h3⟩)
      · exact Or.inr (Or.inl ⟨hcount, h1, h2, h3⟩)
    · by_cases hid2 : tm.id = id
      · have hfind : findTimer id g = some tm := by simp [findTimer, hts, hid, hid2]
        rcases hv with ⟨hkm, hspeed⟩ | ⟨hkm, hspeed⟩
        · have hfire : timerFire id m g = squareMoveTick tm.env m g := by
            simp only [timerFire, hfind, hkm]
          have hf := squareMoveTick_frame tm.env m g
          refine Or.inl ⟨by simp [timeLeftTickCount, hfind, hkm], ?_, ?_⟩
          · simp only [step, hfire]
            exact active_of_inv_started _ (inv_squareMoveTick tm.env m g hact hspeed)
              (hf.2.trans hs)
          · simp only [step, hfire]
            exact hf.1
        · have hfire : timerFire id m g = moveSquare tm.env.squareSize m g := by
            simp only [timerFire, hfind, hkm]
          have hf := moveSquare_frame tm.env.squareSize m g
          refine Or.inl ⟨by simp [timeLeftTickCount, hfind, hkm], ?_, ?_⟩
          · simp only [step, hfire]
            exact active_of_inv_started _ (inv_moveSquare tm.env.squareSize m g hinv)
              (hf.2.2.1.trans hs)
          · simp only [step, hfire]
            exact hf.2.1
      · have hfind : findTimer id g = none := by simp [findTimer, hts, hid, hid2]
        refine Or.inl ⟨by simp [timeLeftTickCount, hfind], ?_, ?_⟩
        · simp only [step, timerFire, hfind]
          exact hact
        · simp [step, timerFire, hfind]

/-- While stopped, an event other than a restart is no time-left tick and changes neither
the time left nor the position of the square. -/
theorem stopped_step_frame (g : Game) (e : Event) (h : Stopped g)
    (hne : e ≠ Event.startGame) :
    timeLeftTickCount g [e] = 0 ∧ (step g e).timeLeft = g.timeLeft ∧
      (step g e).squarePosition = g.squarePosition ∧
      (step g e).currentSquareType = g.currentSquareType ∧
      (step g e).score = g.score := by
  cases e with
  | startGame => exact absurd rfl hne
  | squareClick m =>
    simp [timeLeftTickCount, step, handleSquareClick_inactive m g h.2.1]
  | timerFire id m =>
    have hfind : findTimer id g = none := by simp [findTimer, h.1]
    simp [timeLeftTickCount, step, timerFire, hfind]
  | feedbackTimeout =>
    refine ⟨by simp [timeLeftTickCount], ?_⟩
    simp only [step, feedbackTimeout]
    split_ifs <;> exact ⟨rfl, rfl, rfl, rfl⟩

/-- One event other than a restart moves a round along its phases, the tick count growing
by the time-left ticks among it. -/
theorem roundPhase_step (g : Game) (ticks : Nat) (e : Event) (h : RoundPhase g ticks)
    (hne : e ≠ Event.startGame) :
    RoundPhase (step g e) (ticks + timeLeftTickCount g [e]) := by
  rcases h with ⟨hcd, htime, hticks⟩ | ⟨hact, htime, hticks⟩ | ⟨hstop, htime, hticks⟩
  · obtain ⟨hcount, hsame, hphase⟩ := countingDown_step g e hcd hne
    rw [hcount, hticks]
    rcases hphase with hphase | hphase
    · exact Or.inl ⟨hphase, hsame.trans htime, rfl⟩
    · exact Or.inr (Or.inl ⟨hphase, by rw [hsame, htime], by decide⟩)
  · rcases active_step g e hact (by omega) hne with
      ⟨hcount, hphase, hsame⟩ | ⟨hcount, hmore, hphase, hless⟩ | ⟨hcount, hone, hphase, hzero⟩
    · rw [hcount]
      exact Or.inr (Or.inl ⟨hphase, by rw [hsame]; exact htime, hticks⟩)
    · rw [hcount]
      exact Or.inr (Or.inl ⟨hphase, by omega, by omega⟩)
    · rw [hcount]
      exact Or.inr (Or.inr ⟨hphase, hzero, by omega⟩)
  · obtain ⟨hcount, hsame, _⟩ := stopped_step_frame g e hstop hne
    rw [hcount]
    exact Or.inr (Or.inr ⟨stopped_step g e hstop hne, hsame.trans htime, hticks⟩)

/-- Events without a restart move a round along its phases, the tick count growing by the
time-left ticks among them. -/
theorem roundPhase_run (events : List Event) (g : Game) (ticks : Nat)
    (h : RoundPhase g ticks) (hnostart : ∀ e ∈ events, e ≠ Event.startGame) :
    RoundPhase (run g events) (ticks + timeLeftTickCount g events) := by
  induction events generalizing g ticks with
  | nil => simpa [run, timeLeftTickCount] using h
  | cons e rest ih =>
    have hstep := roundPhase_step g ticks e h (hnostart e (List.mem_cons_self _ _))
    have hrest := ih (step g e) _ hstep
      (fun e2 he2 => hnostart e2 (List.mem_cons_of_mem _ he2))
    rw [timeLeftTickCount_cons, ← Nat.add_assoc]
    exact hrest

/-- Every event keeps the time-left intervals at a delay of 1000 ms. -/
theorem gameTimer_delay_step (g : Game) (e : Event)
    (h : ∀ t ∈ g.timers, t.kind = .gameTimer → t.delay = 1000) :
    ∀ t ∈ (step g e).timers, t.kind = .gameTimer → t.delay = 1000 := by
  cases e with
  | startGame =>
    intro t ht hk
    simp only [step, startGame, setInterval, clearInterval_timers, clearInterval_frame,
      List.mem_append, List.mem_filter, List.mem_singleton] at ht
    rcases ht with ht | ht
    · exact h t ht.1.1.1 hk
    · rw [ht] at hk
      cases hk
  | squareClick m =>
    simp only [step, handleSquareClick]
    split_ifs
    · simpa [moveSquare_frame] using h
    · exact h
  | feedbackTimeout =>
    simp only [step, feedbackTimeout]
    split_ifs <;> exact h
  | timerFire id m =>
    simp only [step, timerFire]
    cases findTimer id g with
    | none => exact h
    | some fired =>
      dsimp only
      cases fired.kind with
      | countdown =>
        dsimp only [countdownTick]
        split_ifs
        · intro t ht hk
          simp only [setInterval, clearInterval_timers, clearInterval_frame, moveSquare_frame,
            List.mem_append, List.mem_filter, List.mem_singleton] at ht
          rcases ht with (ht | ht) | ht
          · exact h t ht.1 hk
          · rw [ht]
          · rw [ht] at hk
            cases hk
        · exact h
      | gameTimer =>
        dsimp only [gameTimerTick]
        split_ifs
        · intro t ht hk
          simp only [clearInterval_timers, clearInterval_frame, List.mem_filter] at ht
          exact h t ht.1.1 hk
        · intro t ht hk
          simp only [clearInterval_timers, clearInterval_frame, List.mem_filter] at ht
          exact h t ht.1.1 hk
        · exact h
      | squareMove =>
        dsimp only [squareMoveTick]
        split_ifs
        · intro t ht hk
          simp only [setInterval, clearInterval_timers, clearInterval_frame, moveSquare_frame,
            List.mem_append, List.mem_filter, List.mem_singleton] at ht
          rcases ht with ht | ht
          · exact h t ht.1 hk
          · rw [ht] at hk
            cases hk
        · simpa [moveSquare_frame] using h
      | moveOnly => simpa [moveSquare_frame] using h

/-- Events keep the time-left intervals at a delay of 1000 ms. -/
theorem gameTimer_delay_run (events : List Event) (g : Game)
    (h : ∀ t ∈ g.timers, t.kind = .gameTimer → t.delay = 1000) :
    ∀ t ∈ (run g events).timers, t.kind = .gameTimer → t.delay = 1000 := by
  induction events generalizing g with
  | nil => exact h
  | cons e rest ih => exact ih (step g e) (gameTimer_delay_step g e h)

/-- While stopped, events without a restart change neither the time left nor the position
of the square, and register no interval. -/
theorem stopped_run_frame (events : List Event) (g : Game) (h : Stopped g)
    (hnostart : ∀ e ∈ events, e ≠ Event.startGame) :
    (run g events).timeLeft = g.timeLeft ∧
      (run g events).squarePosition = g.squarePosition ∧ (run g events).timers = [] := by
  induction events generalizing g with
  | nil => exact ⟨rfl, rfl, h.1⟩
  | cons e rest ih =>
    have hne := hnostart e (List.mem_cons_self _ _)
    have hf := stopped_step_frame g e h hne
    have hrest := ih (step g e) (stopped_step g e h hne)
      (fun e2 he2 => hnostart e2 (List.mem_cons_of_mem _ he2))
    have hrun : run g (e :: rest) = run (step g e) rest := rfl
    rw [hrun]
    exact ⟨hrest.1.trans hf.2.1, hrest.2.1.trans hf.2.2.1, hrest.2.2⟩

end ClickTheSquare

/-- C12: start a round from any reachable state and let any events follow that contain no
restart; let `k` be the number of ticks of the registered time-left interval among them.
Then `k` is at most 15 and the time left is `15 - k`, so it goes 15, 14, ..., 0 over exactly
15 ticks. While the square is shown fewer than 15 ticks have happened and the registered
intervals are the time-left interval and one square-move interval (the original or the
re-created one). Once the 15th tick has happened `gameStarted` is false and no interval is
registered, and whatever events follow short of a restart leave the time left at 0, the
square where it is and no interval registered. -/
theorem round_end_stops_timers (g0 : ClickTheSquare.Game)
    (hreach : ClickTheSquare.Reachable g0) (events : List ClickTheSquare.Event)
    (hnostart : ∀ e ∈ events, e ≠ ClickTheSquare.Event.startGame) :
    let g := ClickTheSquare.run (ClickTheSquare.startGame g0) events
    let k := ClickTheSquare.timeLeftTickCount (ClickTheSquare.startGame g0) events
    k ≤ 15 ∧ g.timeLeft = 15 - k ∧
      (g.gameStarted = true →
        k < 15 ∧ ∃ tg tm, g.timers = [tg, tm] ∧ tg.kind = .gameTimer ∧ tg.delay = 1000 ∧
          (tm.kind = .squareMove ∨ tm.kind = .moveOnly) ∧
          g.gameTimerRef = some tg.id ∧ g.squareMoveIntervalRef = some tm.id) ∧
      (k = 15 →
        g.gameStarted = false ∧ g.timers = [] ∧ g.timeLeft = 0 ∧
          ∀ later : List ClickTheSquare.Event,
            (∀ e ∈ later, e ≠ ClickTheSquare.Event.startGame) →
              (ClickTheSquare.run g later).timeLeft = 0 ∧
                (ClickTheSquare.run g later).squarePosition = g.squarePosition ∧
                (ClickTheSquare.run g later).timers = [] ∧
                ClickTheSquare.timeLeftTickCount g later = 0) := by
  intro g k
  have hinv := ClickTheSquare.inv_of_reachable g0 hreach
  have hstart : ClickTheSquare.RoundPhase (ClickTheSquare.startGame g0) 0 :=
    Or.inl ⟨ClickTheSquare.startGame_countingDown g0 hinv,
      (ClickTheSquare.startGame_frame g0).2.1, rfl⟩
  have hphase := ClickTheSquare.roundPhase_run events _ 0 hstart hnostart
  rw [Nat.zero_add] at hphase
  change ClickTheSquare.RoundPhase g k at hphase
  rcases hphase with ⟨hcd, htime, hticks⟩ | ⟨hact, htime, hticks⟩ | ⟨hstop, htime, hticks⟩
  · obtain ⟨t, _, _, _, _, hfalse, _⟩ := hcd
    refine ⟨by omega, by omega, ?_, ?_⟩
    · intro hs
      rw [hfalse] at hs
      cases hs
    · intro hk
      omega
  · refine ⟨by omega, by omega, ?_, ?_⟩
    · intro _
      obtain ⟨tg, tm, hts, hkg, hgref, hmref, _, _, _, _, hv⟩ := hact
      refine ⟨hticks, tg, tm, hts, hkg, ?_, ?_, hgref, hmref⟩
      · apply ClickTheSquare.gameTimer_delay_run events (ClickTheSquare.startGame g0) ?_ tg
          (by rw [hts]; exact List.mem_cons_self _ _) hkg
        intro t ht hk
        rw [ClickTheSquare.startGame_timers g0 hinv, List.mem_singleton] at ht
        rw [ht] at hk
        cases hk
      · rcases hv with ⟨hkm, _⟩ | ⟨hkm, _⟩
        · exact Or.inl hkm
        · exact Or.inr hkm
    · intro hk
      omega
  · refine ⟨by omega, by omega, ?_, ?_⟩
    · intro hs
      rw [hstop.2.1] at hs
      cases hs
    · intro _
      refine ⟨hstop.2.1, hstop.1, htime, ?_⟩
      intro later hlater
      have hf := ClickTheSquare.stopped_run_frame later g hstop hlater
      have hlate := ClickTheSquare.roundPhase_run later g 15
        (Or.inr (Or.inr ⟨hstop, htime, rfl⟩)) hlater
      refine ⟨hf.1.trans htime, hf.2.1, hf.2.2, ?_⟩
      rcases hlate with ⟨_, _, h15⟩ | ⟨_, _, h15⟩ | ⟨_, _, h15⟩ <;> omega

theorem round_end_stops_timers_witness :
    ClickTheSquare.timeLeftTickCount (ClickTheSquare.startGame (ClickTheSquare.Game.init none))
        ((ClickTheSquare.startAndCountDown 1).tail ++ ClickTheSquare.firstRoundTicks) = 15 ∧
      (ClickTheSquare.run (ClickTheSquare.startGame (ClickTheSquare.Game.init none))
        ((ClickTheSquare.startAndCountDown 1).tail ++ ClickTheSquare.firstRoundTicks)).gameStarted
        = false ∧
      (ClickTheSquare.run (ClickTheSquare.startGame (ClickTheSquare.Game.init none))
        ((ClickTheSquare.startAndCountDown 1).tail ++ ClickTheSquare.firstRoundTicks)).timers
        = [] ∧
      (ClickTheSquare.run (ClickTheSquare.startGame (ClickTheSquare.Game.init none))
        ((ClickTheSquare.startAndCountDown 1).tail ++ ClickTheSquare.firstRoundTicks)).timeLeft
        = 0 :=
  have h := round_end_stops_timers (ClickTheSquare.Game.init none) ⟨none, [], rfl⟩
    ((ClickTheSquare.startAndCountDown 1).tail ++ ClickTheSquare.firstRoundTicks) (by decide)
  ⟨by decide, (h.2.2.2 (by decide)).1, (h.2.2.2 (by decide)).2.1, (h.2.2.2 (by decide)).2.2.1⟩
